import Mathlib

/-! serverlessplus/go : `scfgo.go`

A shallow embedding of the event-to-HTTP adapter of `scfgo.go` and the
properties proved about it.

Conventions of the embedding.

* A Go `string` is a sequence of bytes (`GoString`); `[]byte` is the same type,
  so the conversion `string(body)` is the identity.
* A Go map that is only ranged over is the list of its entries in the order the
  `range` statement visits them; theorems about such a map quantify over that
  order. A map that is looked up or written is an association list with one
  entry per key.
* A Go map that may be `nil` and is written to is an `Option`: `none` is the
  `nil` map. Reading a `nil` map yields the zero value, writing to it panics.
* A function that may panic returns `Except Panic _`.
* The diagnostic lines written with `fmt.Printf` are not part of the state.
-/

namespace Scfgo

/-! ## Strings -/

/-- One byte of a Go string. -/
abbrev Byte := Fin 256

/-- A Go `string` (and a Go `[]byte`): a finite sequence of bytes. -/
abbrev GoString := List Byte

/-- The bytes of an ASCII string literal of the source. -/
def lit (s : String) : GoString :=
  s.toList.map (fun c => Fin.ofNat c.toNat)

/-- The run-time panics the translated code can raise. -/
inductive Panic where
  /-- The panic `assignment to entry in nil map`. -/
  | assignNilMap
  /-- The panic `runtime error: index out of range`. -/
  | indexOutOfRange
  deriving DecidableEq, Repr

/-- The Go index expression `xs[i]`: the element, or the run-time panic. -/
def index {α : Type} (xs : List α) (i : Nat) : Except Panic α :=
  match xs.get? i with
  | some x => .ok x
  | none => .error .indexOutOfRange

/-- Go `strings.ToLower` on one byte: the ASCII letters `A`..`Z` are mapped to
`a`..`z`, every other byte is kept. -/
def lowerByte (b : Byte) : Byte :=
  if 65 ≤ b.val ∧ b.val ≤ 90 then Fin.ofNat (b.val + 32) else b

/-- Go `strings.ToLower`. Go lowers the ASCII letters bytewise and, in a string
with bytes above 0x7f, also the upper-case letters outside ASCII. The source
only compares the result with the ASCII literal `"content-type"`, none of whose
letters is the lower case of a letter outside ASCII, so the bytewise map
decides that comparison exactly as Go does. -/
def ToLower (s : GoString) : GoString := s.map lowerByte

/-- Go `strings.Split(s, sep)` for a separator of one byte, with the piece being
collected in `cur` (reversed): the pieces of `s` between the occurrences of
`sep`. -/
def splitAux (sep : Byte) : GoString → GoString → List GoString
  | [], cur => [cur.reverse]
  | b :: rest, cur =>
    if b = sep then cur.reverse :: splitAux sep rest []
    else splitAux sep rest (b :: cur)

/-- Go `strings.Split(s, sep)` for a separator of one byte (the source calls it
with `";"` only). -/
def Split (s : GoString) (sep : Byte) : List GoString := splitAux sep s []

/-- The byte `;`. -/
def semicolon : Byte := 59

/-! ## Maps -/

/-- The value stored under `k`, or `d` (Go: `m[k]` on a possibly nil map). -/
def mapGet {β : Type} (m : List (GoString × β)) (k : GoString) (d : β) : β :=
  match m with
  | [] => d
  | (k', v) :: rest => if k' = k then v else mapGet rest k d

/-- Whether `k` is a key (Go: the `ok` of `_, ok := m[k]`). -/
def mapHas {β : Type} (m : List (GoString × β)) (k : GoString) : Bool :=
  match m with
  | [] => false
  | (k', _) :: rest => if k' = k then true else mapHas rest k

/-- The map after `m[k] = v`: the entry of `k` is replaced, or added. -/
def mapSet {β : Type} (m : List (GoString × β)) (k : GoString) (v : β) :
    List (GoString × β) :=
  match m with
  | [] => [(k, v)]
  | (k', v') :: rest => if k' = k then (k, v) :: rest else (k', v') :: mapSet rest k v

/-! ## `net/textproto` and `net/http`: header maps -/

/-- Go `validHeaderFieldByte` of `net/textproto`: the bytes of an RFC 7230 token. -/
def validHeaderFieldByte (b : Byte) : Bool :=
  let c := b.val
  (48 ≤ c ∧ c ≤ 57) ∨ (65 ≤ c ∧ c ≤ 90) ∨ (97 ≤ c ∧ c ≤ 122) ∨
  c = 33 ∨ c = 35 ∨ c = 36 ∨ c = 37 ∨ c = 38 ∨ c = 39 ∨ c = 42 ∨ c = 43 ∨
  c = 45 ∨ c = 46 ∨ c = 94 ∨ c = 95 ∨ c = 96 ∨ c = 124 ∨ c = 126

/-- The letter-case pass of `canonicalMIMEHeaderKey`: the first letter and
every letter after a `-` in upper case, the other letters in lower case.
`upper` says whether the next byte starts a word. -/
def canonCase : Bool → GoString → GoString
  | _, [] => []
  | upper, b :: rest =>
    let c : Byte :=
      if upper ∧ 97 ≤ b.val ∧ b.val ≤ 122 then Fin.ofNat (b.val - 32)
      else if ¬ upper ∧ 65 ≤ b.val ∧ b.val ≤ 90 then Fin.ofNat (b.val + 32)
      else b
    c :: canonCase (c.val = 45) rest

/-- Go `textproto.CanonicalMIMEHeaderKey`: a key made of token bytes only is put
in canonical letter case, any other key is returned unchanged. -/
def CanonicalMIMEHeaderKey (s : GoString) : GoString :=
  if s.all validHeaderFieldByte then canonCase true s else s

/-- Go `http.Header`, a `map[string][]string` that may be nil. -/
abbrev Header := Option (List (GoString × List GoString))

/-- Go `http.Header.Add` (`textproto.MIMEHeader.Add`):
`key = CanonicalMIMEHeaderKey(key); h[key] = append(h[key], value)`.
The assignment panics when `h` is the nil map. -/
def Header.Add (h : Header) (key value : GoString) : Except Panic Header :=
  match h with
  | none => .error .assignNilMap
  | some m =>
    let k := CanonicalMIMEHeaderKey key
    .ok (some (mapSet m k (mapGet m k [] ++ [value])))

/-- Go `http.Header.Values`: the values stored under the canonical form of `key`
(none for the nil map). -/
def Header.Values (h : Header) (key : GoString) : List GoString :=
  match h with
  | none => []
  | some m => mapGet m (CanonicalMIMEHeaderKey key) []

/-! ## `net/url`: query values -/

/-- Go `url.Values`, a `map[string][]string` that may be nil. -/
abbrev Values := Option (List (GoString × List GoString))

/-- Go `url.Values.Add`: `v[key] = append(v[key], value)`. The assignment panics
when `v` is the nil map. -/
def Values.Add (v : Values) (key value : GoString) : Except Panic Values :=
  match v with
  | none => .error .assignNilMap
  | some m => .ok (some (mapSet m key (mapGet m key [] ++ [value])))

/-- The digit `n < 16` in upper-case hexadecimal (`"0123456789ABCDEF"[n]`). -/
def upperhex (n : Nat) : Byte :=
  if n < 10 then Fin.ofNat (48 + n) else Fin.ofNat (55 + n)

/-- Go `shouldEscape(c, encodeQueryComponent)` of `net/url`: everything but the
unreserved bytes (letters, digits, `-`, `_`, `.`, `~`) is escaped. -/
def shouldEscape (b : Byte) : Bool :=
  let c := b.val
  ¬ ((48 ≤ c ∧ c ≤ 57) ∨ (65 ≤ c ∧ c ≤ 90) ∨ (97 ≤ c ∧ c ≤ 122) ∨
     c = 45 ∨ c = 95 ∨ c = 46 ∨ c = 126)

/-- Go `url.QueryEscape`: a space becomes `+`, any other escaped byte becomes
`%XX`. -/
def QueryEscape : GoString → GoString
  | [] => []
  | b :: rest =>
    if b.val = 32 then (43 : Byte) :: QueryEscape rest
    else if shouldEscape b then
      (37 : Byte) :: upperhex (b.val / 16) :: upperhex (b.val % 16) :: QueryEscape rest
    else b :: QueryEscape rest

/-- The order of Go strings (`<=`): bytewise lexicographic. -/
def strLe : GoString → GoString → Bool
  | [], _ => true
  | _ :: _, [] => false
  | a :: s, b :: t => if a.val < b.val then true else if b.val < a.val then false else strLe s t

/-- Insertion of a key into a sorted list of keys. -/
def insertKey (k : GoString) : List GoString → List GoString
  | [] => [k]
  | k' :: rest => if strLe k k' then k :: k' :: rest else k' :: insertKey k rest

/-- Go `sort.Strings`, as an insertion sort. -/
def sortKeys (ks : List GoString) : List GoString := ks.foldr insertKey []

/-- The parameters `key=value` that `Encode` writes for one key, joined to what
is already written in `buf`: an `&` goes before every parameter but the first of
the whole string. -/
def encodeKey (keyEscaped : GoString) : List GoString → GoString → GoString
  | [], buf => buf
  | v :: vs, buf =>
    encodeKey keyEscaped vs
      ((if buf.length > 0 then buf ++ [(38 : Byte)] else buf) ++ keyEscaped ++ [(61 : Byte)] ++
        QueryEscape v)

/-- Go `url.Values.Encode`: the empty string for a nil (or empty) map, otherwise
the parameters of the keys in sorted order, each key with its values in their
order, form-encoded. -/
def Values.Encode (v : Values) : GoString :=
  match v with
  | none => []
  | some m =>
    (sortKeys (m.map Prod.fst)).foldl
      (fun buf k => encodeKey (QueryEscape k) (mapGet m k []) buf) []

/-! ## `encoding/base64`: the standard, padded encoding -/

/-- The alphabet of `base64.StdEncoding`. -/
def encodeStd : GoString :=
  lit "ABCDEFGHIJKLMNOPQRSTUVWXYZabcdefghijklmnopqrstuvwxyz0123456789+/"

/-- The table lookup `enc.encode[i]`. -/
def encChar (i : Nat) : Byte := encodeStd.getD i 0

/-- The padding character `=`. -/
def padChar : Byte := 61

/-- Go `base64.StdEncoding.EncodeToString`: every three bytes give four
characters; a remainder of one or two bytes gives two or three characters and
is padded with `=` to four. -/
def EncodeToString : List Byte → GoString
  | a :: b :: c :: rest =>
    let val := a.val * 65536 + b.val * 256 + c.val
    encChar (val / 262144 % 64) :: encChar (val / 4096 % 64) :: encChar (val / 64 % 64) ::
      encChar (val % 64) :: EncodeToString rest
  | [a, b] =>
    let val := a.val * 65536 + b.val * 256
    [encChar (val / 262144 % 64), encChar (val / 4096 % 64), encChar (val / 64 % 64), padChar]
  | [a] =>
    let val := a.val * 65536
    [encChar (val / 262144 % 64), encChar (val / 4096 % 64), padChar, padChar]
  | [] => []

/-- The inverse of the alphabet: the six-bit value of a character, if it is one
of the 64 characters. -/
def decChar (b : Byte) : Option Nat :=
  let c := b.val
  if 65 ≤ c ∧ c ≤ 90 then some (c - 65)
  else if 97 ≤ c ∧ c ≤ 122 then some (c - 71)
  else if 48 ≤ c ∧ c ≤ 57 then some (c + 4)
  else if c = 43 then some 62
  else if c = 47 then some 63
  else none

/-- Standard (RFC 4648, padded) base64 decoding: the input is read in groups of
four characters; only the last group may end in one or two `=`. Fails on any
other input. -/
def DecodeString : GoString → Option (List Byte)
  | [] => some []
  | [c0, c1, c2, c3] =>
    match decChar c0, decChar c1 with
    | some v0, some v1 =>
      if c2 = padChar ∧ c3 = padChar then
        some [Fin.ofNat ((v0 * 64 + v1) / 16)]
      else
        match decChar c2 with
        | none => none
        | some v2 =>
          if c3 = padChar then
            let n := (v0 * 64 + v1) * 64 + v2
            some [Fin.ofNat (n / 1024), Fin.ofNat (n / 4 % 256)]
          else
            match decChar c3 with
            | none => none
            | some v3 =>
              let n := ((v0 * 64 + v1) * 64 + v2) * 64 + v3
              some [Fin.ofNat (n / 65536), Fin.ofNat (n / 256 % 256), Fin.ofNat (n % 256)]
    | _, _ => none
  | c0 :: c1 :: c2 :: c3 :: rest =>
    match decChar c0, decChar c1, decChar c2, decChar c3, DecodeString rest with
    | some v0, some v1, some v2, some v3, some tail =>
      let n := ((v0 * 64 + v1) * 64 + v2) * 64 + v3
      some (Fin.ofNat (n / 65536) :: Fin.ofNat (n / 256 % 256) :: Fin.ofNat (n % 256) :: tail)
    | _, _, _, _, _ => none
  | _ => none

/-! ## The data model of `scfgo.go` -/

/-- A Go `error` value, identified by its message. -/
structure GoError where
  msg : GoString
  deriving DecidableEq

/-- The anonymous struct of the field `Identity`; `SecretID` is a `*string`,
`none` being the nil pointer. -/
structure Identity where
  SecretID : Option GoString
  deriving DecidableEq

/-- The struct `APIGatewayRequestContext`. -/
structure APIGatewayRequestContext where
  ServiceID : GoString
  RequestID : GoString
  Method : GoString
  Path : GoString
  SourceIP : GoString
  Stage : GoString
  Identity : Identity
  deriving DecidableEq

/-- A value of the interface type of the `QueryString` map: a `string`, a
`[]string`, or a value of any other dynamic type (given by its `%v` text). -/
inductive QueryValue where
  | str (s : GoString)
  | strs (ss : List GoString)
  | other (printed : GoString)
  deriving DecidableEq

/-- The struct `APIGatewayRequest`. `Headers` and `QueryString` are only ranged
over: they are the entries in the order of the `range` (a nil map has none). -/
structure APIGatewayRequest where
  Headers : List (GoString × GoString)
  Method : GoString
  Path : GoString
  QueryString : List (GoString × QueryValue)
  Body : GoString
  Context : APIGatewayRequestContext
  deriving DecidableEq

/-- The struct `APIGatewayResponse`. `Headers` is `none` for the nil map. -/
structure APIGatewayResponse where
  IsBase64Encoded : Bool
  StatusCode : Int
  Headers : Option (List (GoString × GoString))
  Body : GoString
  deriving DecidableEq

/-- The fields of `url.URL` that matter here; `toHTTPRequest` sets `Scheme`,
`Host`, `RawPath` and `RawQuery` and leaves the others, `Path` among them, at
their zero value. -/
structure URL where
  Scheme : GoString
  Host : GoString
  Path : GoString
  RawPath : GoString
  RawQuery : GoString
  deriving DecidableEq

/-- The fields of `http.Request` that `toHTTPRequest` sets, and `Header`. -/
structure Request where
  Method : GoString
  URL : URL
  Header : Header
  Body : GoString
  deriving DecidableEq

/-- An `http.Response` as `toAPIGatewayResponse` sees it: the status code, the
header map as the entries in the order of the `range`, and what
`ioutil.ReadAll(r.Body)` returns, the bytes read and the error if any. -/
structure Response where
  StatusCode : Int
  Header : List (GoString × List GoString)
  Body : List Byte × Option GoError
  deriving DecidableEq

/-- What `functioncontext.FromContext` finds in a context. -/
structure FunctionContext where
  RequestID : GoString
  deriving DecidableEq

/-- The struct `Handler`. `client` is the method `Do` of the `http.Client`: it
returns a response or an error. `binaryMIMETypes` is only looked up: it is the
list of its keys (none for the nil map). -/
structure Handler where
  client : Request → Except GoError Response
  host : GoString
  port : Int
  binaryMIMETypes : List GoString

/-- The constant `Host`. -/
def Host : GoString := lit "127.0.0.1"

/-! ## The functions of `scfgo.go` -/

/-- The function `NewHandler`: the default client is a parameter; `binaryMIMETypes` is left
nil. -/
def NewHandler (defaultClient : Request → Except GoError Response) (port : Int) : Handler :=
  { client := defaultClient, host := Host, port := port, binaryMIMETypes := [] }

/-- The method `Handler.WithClient`. -/
def Handler.WithClient (h : Handler) (c : Request → Except GoError Response) : Handler :=
  { h with client := c }

/-- The method `Handler.WithBinaryMIMETypes`. -/
def Handler.WithBinaryMIMETypes (h : Handler) (types : List GoString) : Handler :=
  { h with binaryMIMETypes := types }

/-- The body of the `range` loop of `toQueryString` for one entry: a string is
added once, a `[]string` element by element, any other value is only
printed. -/
def addQueryValue (values : Values) (name : GoString) (value : QueryValue) :
    Except Panic Values :=
  match value with
  | .str rawValue => values.Add name rawValue
  | .strs rawValues => rawValues.foldlM (fun vs value => Values.Add vs name value) values
  | .other _ => .ok values

/-- The `range` loop of `toQueryString` (lines 100-114), started with the map
`values` and visiting the entries of `m` in the order given. -/
def addQueryValues (values : Values) (m : List (GoString × QueryValue)) :
    Except Panic Values :=
  m.foldlM (fun vs entry => addQueryValue vs entry.1 entry.2) values

/-- The function `toQueryString`: `var values url.Values` declares the nil map; the loop
adds to it and the result is its encoding. -/
def toQueryString (m : List (GoString × QueryValue)) : Except Panic GoString := do
  let values ← addQueryValues none m
  pure values.Encode

/-- Lines 127-144 of `toHTTPRequest`: the writes to `req.Header`, started with
the header map `header`: the headers of the event, `x-scf-requestid` when a
function context was found, the seven headers of the request context, and
`x-apigateway-secretid` when the secret ID pointer is not nil. -/
def addHeaders (fc : Option FunctionContext) (r : APIGatewayRequest) (header : Header) :
    Except Panic Header := do
  let h ← r.Headers.foldlM (fun h entry => Header.Add h entry.1 entry.2) header
  let h ← match fc with
    | some funcCtx => Header.Add h (lit "x-scf-requestid") funcCtx.RequestID
    | none => pure h
  let h ← Header.Add h (lit "x-apigateway-serviceid") r.Context.ServiceID
  let h ← Header.Add h (lit "x-apigateway-requestid") r.Context.RequestID
  let h ← Header.Add h (lit "x-apigateway-method") r.Context.Method
  let h ← Header.Add h (lit "x-apigateway-path") r.Context.Path
  let h ← Header.Add h (lit "x-apigateway-sourceip") r.Context.SourceIP
  let h ← Header.Add h (lit "x-forwarded-for") r.Context.SourceIP
  let h ← Header.Add h (lit "x-apigateway-stage") r.Context.Stage
  match r.Context.Identity.SecretID with
  | some secretID => Header.Add h (lit "x-apigateway-secretid") secretID
  | none => pure h

/-- The host of the URL, `fmt.Sprintf("%s:%d", Host, port)`. -/
def hostPort (port : Int) : GoString := Host ++ lit ":" ++ lit (toString port)

/-- The method `APIGatewayRequest.toHTTPRequest`. `fc` is what
`functioncontext.FromContext(ctx)` finds. `req := http.Request{}` leaves
`req.Header` the nil map, and the header writes start from it. -/
def toHTTPRequest (fc : Option FunctionContext) (r : APIGatewayRequest) (port : Int) :
    Except Panic Request := do
  let rawQuery ← toQueryString r.QueryString
  let url : URL :=
    { Scheme := lit "http", Host := hostPort port, Path := [], RawPath := r.Path,
      RawQuery := rawQuery }
  let header ← addHeaders fc r none
  pure { Method := r.Method, URL := url, Header := header, Body := r.Body }

/-- The envelope `&APIGatewayResponse{StatusCode: 500}`. -/
def errorResponse : APIGatewayResponse :=
  { IsBase64Encoded := false, StatusCode := 500, Headers := none, Body := [] }

/-- The body of the `range` loop of `toAPIGatewayResponse` for one header: the
first value is stored under the name, and for a name that is `content-type` in
lower case the part of that value before the first `;` becomes the content
type. The state is the header map of the envelope and the content type. -/
def collectHeader (st : List (GoString × GoString) × GoString) (name : GoString)
    (values : List GoString) : Except Panic (List (GoString × GoString) × GoString) := do
  let first ← index values 0
  let headers := mapSet st.1 name first
  if ToLower name = lit "content-type" then
    let contentType ← index (Split first semicolon) 0
    pure (headers, contentType)
  else
    pure (headers, st.2)

/-- The `range` loop of `toAPIGatewayResponse` (lines 155-160), started with
the empty map and the empty content type. -/
def collectHeaders (header : List (GoString × List GoString)) :
    Except Panic (List (GoString × GoString) × GoString) :=
  header.foldlM (fun st entry => collectHeader st entry.1 entry.2) ([], [])

/-- The method `Handler.toAPIGatewayResponse`: the envelope and the error returned. -/
def Handler.toAPIGatewayResponse (h : Handler) (r : Response) :
    Except Panic (APIGatewayResponse × Option GoError) := do
  let (headers, contentType) ← collectHeaders r.Header
  let isBase64Encoded : Bool := decide (contentType ∈ h.binaryMIMETypes)
  match r.Body with
  | (_, some err) => pure (errorResponse, some err)
  | (body, none) =>
    pure ({ IsBase64Encoded := isBase64Encoded, StatusCode := r.StatusCode,
            Headers := some headers,
            Body := if isBase64Encoded then EncodeToString body else body }, none)

/-- Lines 89-95 of `Handle`: the request is sent; a transport error gives the
500 envelope and the error, a response is translated. -/
def Handler.send (h : Handler) (req : Request) :
    Except Panic (APIGatewayResponse × Option GoError) :=
  match h.client req with
  | .error err => pure (errorResponse, some err)
  | .ok resp => h.toAPIGatewayResponse resp

/-- The method `Handler.Handle`: the envelope and the error returned. -/
def Handler.Handle (h : Handler) (fc : Option FunctionContext) (r : APIGatewayRequest) :
    Except Panic (APIGatewayResponse × Option GoError) := do
  let req ← toHTTPRequest fc r h.port
  h.send req

/-! ## Auxiliary definitions used to state the properties -/

deriving instance DecidableEq for Except

/-- The map after `Add(key, value)` on an allocated header map. -/
def addEntry (m : List (GoString × List GoString)) (key value : GoString) :
    List (GoString × List GoString) :=
  mapSet m (CanonicalMIMEHeaderKey key) (mapGet m (CanonicalMIMEHeaderKey key) [] ++ [value])

/-- The headers that lines 131-144 of `toHTTPRequest` add, in the order of the
statements. -/
def synthesized (fc : Option FunctionContext) (r : APIGatewayRequest) :
    List (GoString × GoString) :=
  (match fc with
    | some funcCtx => [(lit "x-scf-requestid", funcCtx.RequestID)]
    | none => []) ++
  [(lit "x-apigateway-serviceid", r.Context.ServiceID),
   (lit "x-apigateway-requestid", r.Context.RequestID),
   (lit "x-apigateway-method", r.Context.Method),
   (lit "x-apigateway-path", r.Context.Path),
   (lit "x-apigateway-sourceip", r.Context.SourceIP),
   (lit "x-forwarded-for", r.Context.SourceIP),
   (lit "x-apigateway-stage", r.Context.Stage)] ++
  (match r.Context.Identity.SecretID with
    | some secretID => [(lit "x-apigateway-secretid", secretID)]
    | none => [])

/-- The values among `entries` whose name has the same canonical form as
`key`, in order. -/
def valuesNamed (entries : List (GoString × GoString)) (key : GoString) : List GoString :=
  (entries.filter
    (fun e => decide (CanonicalMIMEHeaderKey e.1 = CanonicalMIMEHeaderKey key))).map Prod.snd

/-- The part of `s` before its first `;` (all of `s` when it has none). -/
def beforeSemicolon (s : GoString) : GoString :=
  s.takeWhile (fun b => decide (b ≠ semicolon))

/-- Whether a header name is `content-type` when put in lower case
(`strings.ToLower(name) == "content-type"`). -/
def isContentType (name : GoString) : Bool := decide (ToLower name = lit "content-type")

/-- One step of the `range` loop of `toAPIGatewayResponse` on a header with at
least one value, as a total function. -/
def collectStep (st : List (GoString × GoString) × GoString) (e : GoString × List GoString) :
    List (GoString × GoString) × GoString :=
  (mapSet st.1 e.1 (e.2.headD []),
    if isContentType e.1 then beforeSemicolon (e.2.headD []) else st.2)

/-- Whether a query value is a `string` or a `[]string`. -/
def QueryValue.isSupported : QueryValue → Bool
  | .str _ => true
  | .strs _ => true
  | .other _ => false

/-! ## Sample inputs -/

/-- An event with an empty request context and no headers or query. -/
def emptyEvent : APIGatewayRequest :=
  { Headers := [], Method := lit "GET", Path := lit "/", QueryString := [], Body := [],
    Context := { ServiceID := [], RequestID := [], Method := [], Path := [], SourceIP := [],
                 Stage := [], Identity := { SecretID := none } } }

/-- An event whose request context is filled in; no secret ID. -/
def contextEvent : APIGatewayRequest :=
  { emptyEvent with
    Context := { ServiceID := lit "service-1", RequestID := lit "req-1", Method := lit "GET",
                 Path := lit "/users", SourceIP := lit "10.0.0.1", Stage := lit "release",
                 Identity := { SecretID := none } } }

/-- An event of an authenticated caller: the secret ID is `sk-123`. -/
def secretEvent : APIGatewayRequest :=
  { emptyEvent with
    Context := { emptyEvent.Context with Identity := { SecretID := some (lit "sk-123") } } }

/-- An event without secret ID whose own headers carry `x-apigateway-secretid`. -/
def forgedSecretEvent : APIGatewayRequest :=
  { emptyEvent with Headers := [(lit "x-apigateway-secretid", lit "forged")] }

/-- An event whose own headers carry `X-Forwarded-For`. -/
def forwardedEvent : APIGatewayRequest :=
  { contextEvent with Headers := [(lit "X-Forwarded-For", lit "1.2.3.4")] }

/-- The query map `{"a": "1", "b": ["x","y"]}`, ranged over with `a` first. -/
def queryAB : List (GoString × QueryValue) :=
  [(lit "a", .str (lit "1")), (lit "b", .strs [lit "x", lit "y"])]

/-- The query map `{"a": "1", "b": ["x","y"]}`, ranged over with `b` first. -/
def queryBA : List (GoString × QueryValue) :=
  [(lit "b", .strs [lit "x", lit "y"]), (lit "a", .str (lit "1"))]

/-- The query map `{"a": "1", "n": 42}`. -/
def queryMixed : List (GoString × QueryValue) :=
  [(lit "a", .str (lit "1")), (lit "n", .other (lit "42"))]

/-- The error of a refused connection. -/
def connectionRefused : GoError := { msg := lit "connect: connection refused" }

/-- A handler whose transport call always fails (no listener on the port). -/
def refusingHandler : Handler := NewHandler (fun _ => .error connectionRefused) 8080

/-- The error of a body that cannot be read to its end. -/
def unexpectedEOF : GoError := { msg := lit "unexpected EOF" }

/-- A handler for which `image/png` and `application/octet-stream` are binary. -/
def binaryHandler : Handler :=
  (NewHandler (fun _ => .error connectionRefused) 8080).WithBinaryMIMETypes
    [lit "image/png", lit "application/octet-stream"]

/-- A handler as `NewHandler` returns it: no binary MIME types. -/
def plainHandler : Handler := NewHandler (fun _ => .error connectionRefused) 8080

/-- A response with `Content-Type: IMAGE/PNG`. -/
def upperCaseResponse : Response :=
  { StatusCode := 200, Header := [(lit "Content-Type", [lit "IMAGE/PNG"])],
    Body := ([137, 80, 78, 71], none) }

/-- A response with `Content-Type: image/png` whose body cannot be read. -/
def unreadableResponse : Response :=
  { StatusCode := 200,
    Header := [(lit "Content-Type", [lit "image/png"]), (lit "Set-Cookie", [lit "a=1", lit "b=2"])],
    Body := ([137, 80], some unexpectedEOF) }

/-- A response with `Content-Type: application/octet-stream; charset=binary`
and a payload of five bytes that is not text. -/
def octetResponse : Response :=
  { StatusCode := 200,
    Header := [(lit "Content-Type", [lit "application/octet-stream; charset=binary"])],
    Body := ([0, 255, 16, 128, 7], none) }

/-- A response with `Content-Type: text/plain` and the payload `hello`. -/
def textResponse : Response :=
  { StatusCode := 200, Header := [(lit "Content-Type", [lit "text/plain"])],
    Body := (lit "hello", none) }

/-- A response with a repeated header: two values under `Set-Cookie`. -/
def cookieResponse : Response :=
  { StatusCode := 204,
    Header := [(lit "Set-Cookie", [lit "a=1", lit "b=2"]), (lit "X-Id", [lit "7"])],
    Body := ([], none) }

/-! ## The URL of the request and how `net/url` renders its path -/

/-- Lines 121-126 of `toHTTPRequest`: the URL literal. The path of the event
goes to the field `RawPath`; the field `Path` keeps its zero value. -/
def requestURL (r : APIGatewayRequest) (port : Int) : Except Panic URL := do
  let rawQuery ← toQueryString r.QueryString
  pure { Scheme := lit "http", Host := hostPort port, Path := [], RawPath := r.Path,
         RawQuery := rawQuery }

/-- Go `ishex` of `net/url`. -/
def ishex (b : Byte) : Bool :=
  let c := b.val
  (48 ≤ c ∧ c ≤ 57) ∨ (97 ≤ c ∧ c ≤ 102) ∨ (65 ≤ c ∧ c ≤ 70)

/-- Go `unhex` of `net/url`. -/
def unhex (b : Byte) : Nat :=
  let c := b.val
  if 48 ≤ c ∧ c ≤ 57 then c - 48
  else if 97 ≤ c ∧ c ≤ 102 then c - 97 + 10
  else if 65 ≤ c ∧ c ≤ 70 then c - 65 + 10
  else 0

/-- Go `unescape(s, encodePath)` of `net/url`: every `%XX` becomes the byte
`XX`, every other byte is kept; `none` is the error of a `%` that is not
followed by two hexadecimal digits. -/
def unescapePath : GoString → Option GoString
  | [] => some []
  | b :: rest =>
    if b.val = 37 then
      match rest with
      | h1 :: h2 :: rest2 =>
        if ishex h1 ∧ ishex h2 then
          (unescapePath rest2).map (fun t => Fin.ofNat (unhex h1 * 16 + unhex h2) :: t)
        else none
      | _ => none
    else (unescapePath rest).map (fun t => b :: t)

/-- Go `shouldEscape(c, encodePath)` of `net/url`: letters, digits, `-`, `_`,
`.`, `~` and the reserved bytes other than `?` are not escaped. -/
def shouldEscapePath (b : Byte) : Bool :=
  let c := b.val
  ¬ ((48 ≤ c ∧ c ≤ 57) ∨ (65 ≤ c ∧ c ≤ 90) ∨ (97 ≤ c ∧ c ≤ 122) ∨
     c = 45 ∨ c = 95 ∨ c = 46 ∨ c = 126 ∨
     c = 36 ∨ c = 38 ∨ c = 43 ∨ c = 44 ∨ c = 47 ∨ c = 58 ∨ c = 59 ∨ c = 61 ∨ c = 64)

/-- Go `validEncoded(s, encodePath)` of `net/url`: the sub-delimiters, `:`,
`@`, `[`, `]` and `%` are accepted, any other byte when it needs no escape. -/
def validEncodedPath (s : GoString) : Bool :=
  s.all (fun b =>
    let c := b.val
    decide (c = 33 ∨ c = 36 ∨ c = 38 ∨ c = 39 ∨ c = 40 ∨ c = 41 ∨ c = 42 ∨ c = 43 ∨ c = 44 ∨
      c = 59 ∨ c = 61 ∨ c = 58 ∨ c = 64 ∨ c = 91 ∨ c = 93 ∨ c = 37) || ! shouldEscapePath b)

/-- Go `escape(s, encodePath)` of `net/url`: an escaped byte becomes `%XX`. -/
def escapePath : GoString → GoString
  | [] => []
  | b :: rest =>
    if shouldEscapePath b then
      (37 : Byte) :: upperhex (b.val / 16) :: upperhex (b.val % 16) :: escapePath rest
    else b :: escapePath rest

/-- Go `URL.EscapedPath`: `RawPath` when it is a valid encoding of `Path`,
otherwise the escaped form of `Path`. -/
def URL.EscapedPath (u : URL) : GoString :=
  if u.RawPath ≠ [] ∧ validEncodedPath u.RawPath = true ∧ unescapePath u.RawPath = some u.Path
  then u.RawPath
  else if u.Path = lit "*" then lit "*"
  else escapePath u.Path

/-- Go `URL.RequestURI` for a URL without `Opaque` and `ForceQuery`: the
escaped path, `/` when that is empty, and `?` with the query when there is
one. This is the request target the transport sends. -/
def URL.RequestURI (u : URL) : GoString :=
  (if u.EscapedPath = [] then lit "/" else u.EscapedPath) ++
    (if u.RawQuery ≠ [] then lit "?" ++ u.RawQuery else [])

/-! ## More sample inputs -/

/-- An event for the path `/users`. -/
def pathEvent : APIGatewayRequest := { emptyEvent with Path := lit "/users" }

/-- An event whose own headers carry `x-scf-requestid`. -/
def scfHeaderEvent : APIGatewayRequest :=
  { emptyEvent with Headers := [(lit "x-scf-requestid", lit "forged")] }

/-- An event with a header whose name is in lower case. -/
def customHeaderEvent : APIGatewayRequest :=
  { emptyEvent with Headers := [(lit "x-custom-id", lit "7")] }

/-- A function context with the request ID `scf-1`. -/
def sampleFunctionContext : FunctionContext := { RequestID := lit "scf-1" }

/-- A handler whose transport call returns a response with an unreadable
body. -/
def truncatingHandler : Handler := NewHandler (fun _ => .ok unreadableResponse) 8080

/-- A response whose header `X-Empty` has no value. -/
def emptyValuesResponse : Response :=
  { StatusCode := 200, Header := [(lit "X-Empty", [])], Body := ([], none) }

/-- A response whose `Content-Type` is the empty string. -/
def emptyContentTypeResponse : Response :=
  { StatusCode := 200, Header := [(lit "Content-Type", [[]])], Body := (lit "ok", none) }

/-- The query map `{"c": "3", "a": "1", "b": ["x","y"]}`, ranged over as
`c`, `a`, `b`. -/
def queryCAB : List (GoString × QueryValue) :=
  [(lit "c", .str (lit "3")), (lit "a", .str (lit "1")), (lit "b", .strs [lit "x", lit "y"])]

/-- The same query map, ranged over as `b`, `c`, `a`. -/
def queryBCA : List (GoString × QueryValue) :=
  [(lit "b", .strs [lit "x", lit "y"]), (lit "c", .str (lit "3")), (lit "a", .str (lit "1"))]

/-- Whether the loop of `toQueryString` calls `Add` for a value: a `string`, or a
`[]string` that is not empty. -/
def QueryValue.adds : QueryValue → Bool
  | .str _ => true
  | .strs (_ :: _) => true
  | _ => false

/-- The strings the loop of `toQueryString` adds for a value, in order. -/
def QueryValue.strings : QueryValue → List GoString
  | .str s => [s]
  | .strs ss => ss
  | .other _ => []

/-- The map after `Add(key, value)` on an allocated `url.Values`. -/
def addValue (m : List (GoString × List GoString)) (key value : GoString) :
    List (GoString × List GoString) :=
  mapSet m key (mapGet m key [] ++ [value])

/-- The map after the loop of `toQueryString` has visited one entry, on an
allocated `url.Values`. -/
def addQueryEntry (m : List (GoString × List GoString)) (e : GoString × QueryValue) :
    List (GoString × List GoString) :=
  e.2.strings.foldl (fun m v => addValue m e.1 v) m

/-! ## Lemmas: writes to a nil map -/

theorem headerAdd_nil (key value : GoString) :
    Header.Add none key value = .error .assignNilMap := rfl

theorem valuesAdd_nil (key value : GoString) :
    Values.Add none key value = .error .assignNilMap := rfl

/-- A loop whose body panics on the state `s` panics when it runs at least once
from `s`. -/
theorem foldlM_panic_of_first {α β : Type} (f : β → α → Except Panic β) (s : β) (p : Panic)
    (hf : ∀ a, f s a = .error p) (a : α) (l : List α) :
    (a :: l).foldlM f s = .error p := by
  simp [List.foldlM_cons, hf, bind, Except.bind]

/-- The header writes of `toHTTPRequest` panic on the nil header map. -/
theorem addHeaders_nil (fc : Option FunctionContext) (r : APIGatewayRequest) :
    addHeaders fc r none = .error .assignNilMap := by
  unfold addHeaders
  cases hH : r.Headers with
  | nil =>
    cases fc <;> simp [Header.Add, bind, Except.bind, pure, Except.pure]
  | cons a l =>
    rw [foldlM_panic_of_first _ _ .assignNilMap (fun _ => rfl)]
    rfl

theorem addQueryValue_nil (name : GoString) (value : QueryValue) :
    addQueryValue none name value = .ok none ∨
      addQueryValue none name value = .error .assignNilMap := by
  cases value with
  | str s => right; rfl
  | strs ss =>
    cases ss with
    | nil => left; rfl
    | cons a l =>
      right
      exact foldlM_panic_of_first (fun vs value => Values.Add vs name value) none
        .assignNilMap (fun _ => rfl) a l
  | other p => left; rfl

theorem addQueryValues_nil (m : List (GoString × QueryValue)) :
    addQueryValues none m = .ok none ∨ addQueryValues none m = .error .assignNilMap := by
  induction m with
  | nil => left; rfl
  | cons e m ih =>
    unfold addQueryValues at ih ⊢
    rw [List.foldlM_cons]
    rcases addQueryValue_nil e.1 e.2 with h | h
    · rw [h]; exact ih
    · rw [h]; right; rfl

/-- The only outcomes of `toQueryString`: the empty string, or the panic of a
write to the nil map. -/
theorem toQueryString_nil_or_panic (m : List (GoString × QueryValue)) :
    toQueryString m = .ok [] ∨ toQueryString m = .error .assignNilMap := by
  unfold toQueryString
  rcases addQueryValues_nil m with h | h
  · rw [h]; left; rfl
  · rw [h]; right; rfl

/-- On every input `toHTTPRequest` panics with a write to a nil map. -/
theorem toHTTPRequest_eq_panic (fc : Option FunctionContext) (r : APIGatewayRequest)
    (port : Int) : toHTTPRequest fc r port = .error .assignNilMap := by
  unfold toHTTPRequest
  rcases toQueryString_nil_or_panic r.QueryString with h | h
  · rw [h, addHeaders_nil]; rfl
  · rw [h]; rfl

/-- On every input `Handle` panics before the transport call. -/
theorem Handle_eq_panic (h : Handler) (fc : Option FunctionContext) (r : APIGatewayRequest) :
    h.Handle fc r = .error .assignNilMap := by
  unfold Handler.Handle
  rw [toHTTPRequest_eq_panic]
  rfl

/-- Lines 89-93 of `Handle`: when the transport call fails with `err`, the 500
envelope and `err` are returned. -/
theorem send_transport_error (h : Handler) (req : Request) (err : GoError)
    (hdo : h.client req = .error err) : h.send req = .ok (errorResponse, some err) := by
  unfold Handler.send
  rw [hdo]
  rfl

/-- Entries of an unsupported type do not change the outcome of the loop of
`toQueryString`, whatever map it starts from. -/
theorem addQueryValues_filter_supported (m : List (GoString × QueryValue)) (values : Values) :
    addQueryValues values (m.filter (fun e => e.2.isSupported)) = addQueryValues values m := by
  induction m generalizing values with
  | nil => rfl
  | cons e m ih =>
    obtain ⟨name, value⟩ := e
    unfold addQueryValues at ih ⊢
    cases value with
    | str s =>
      simp only [List.filter_cons, QueryValue.isSupported, if_true, List.foldlM_cons]
      congr 1
      funext v
      exact ih v
    | strs ss =>
      simp only [List.filter_cons, QueryValue.isSupported, if_true, List.foldlM_cons]
      congr 1
      funext v
      exact ih v
    | other p =>
      simp only [List.filter_cons, QueryValue.isSupported, List.foldlM_cons]
      exact ih values

/-- Removing the entries of an unsupported type does not change the outcome of
`toQueryString`. -/
theorem toQueryString_filter_supported (m : List (GoString × QueryValue)) :
    toQueryString (m.filter (fun e => e.2.isSupported)) = toQueryString m := by
  unfold toQueryString
  rw [addQueryValues_filter_supported]

/-! ## Lemmas: header writes on an allocated map -/

theorem mapGet_mapSet {β : Type} (m : List (GoString × β)) (k k' : GoString) (v d : β) :
    mapGet (mapSet m k v) k' d = if k = k' then v else mapGet m k' d := by
  induction m with
  | nil => simp [mapSet, mapGet]
  | cons e m ih =>
    obtain ⟨a, b⟩ := e
    by_cases h1 : a = k
    · subst h1
      by_cases h2 : a = k' <;> simp [mapSet, mapGet, h2]
    · by_cases h2 : a = k'
      · subst h2
        simp [mapSet, mapGet, h1, Ne.symm h1]
      · simp [mapSet, mapGet, h1, h2, ih]

theorem headerAdd_some (m : List (GoString × List GoString)) (key value : GoString) :
    Header.Add (some m) key value = .ok (some (addEntry m key value)) := rfl

theorem foldlM_Add_some (l : List (GoString × GoString)) (m : List (GoString × List GoString)) :
    l.foldlM (fun h entry => Header.Add h entry.1 entry.2) (some m) =
      .ok (some (l.foldl (fun m e => addEntry m e.1 e.2) m)) := by
  induction l generalizing m with
  | nil => rfl
  | cons e l ih => rw [List.foldlM_cons, headerAdd_some]; exact ih _

theorem mapGet_foldl_addEntry (l : List (GoString × GoString))
    (m : List (GoString × List GoString)) (key : GoString) :
    mapGet (l.foldl (fun m e => addEntry m e.1 e.2) m) (CanonicalMIMEHeaderKey key) [] =
      mapGet m (CanonicalMIMEHeaderKey key) [] ++ valuesNamed l key := by
  induction l generalizing m with
  | nil => simp [valuesNamed]
  | cons e l ih =>
    rw [List.foldl_cons, ih, addEntry, mapGet_mapSet]
    by_cases h : CanonicalMIMEHeaderKey e.1 = CanonicalMIMEHeaderKey key
    · simp [valuesNamed, h]
    · simp [valuesNamed, h]

/-- On an allocated map the header writes of `toHTTPRequest` succeed: they add
the headers of the event and then the synthesized ones. -/
theorem addHeaders_allocated (fc : Option FunctionContext) (r : APIGatewayRequest)
    (m : List (GoString × List GoString)) :
    addHeaders fc r (some m) =
      .ok (some ((r.Headers ++ synthesized fc r).foldl (fun m e => addEntry m e.1 e.2) m)) := by
  obtain ⟨hs, me, p, q, b, ⟨c1, c2, c3, c4, c5, c6, ⟨sec⟩⟩⟩ := r
  unfold addHeaders
  rw [foldlM_Add_some, List.foldl_append]
  cases fc <;> cases sec <;> rfl

/-- On an allocated empty map the header writes leave, under every name, the
values of the event headers of that name followed by the synthesized ones. -/
theorem addHeaders_values (fc : Option FunctionContext) (r : APIGatewayRequest) :
    ∃ h, addHeaders fc r (some []) = .ok h ∧
      ∀ key, h.Values key = valuesNamed r.Headers key ++ valuesNamed (synthesized fc r) key := by
  refine ⟨_, addHeaders_allocated fc r [], fun key => ?_⟩
  simp only [Header.Values]
  rw [mapGet_foldl_addEntry]
  simp [mapGet, valuesNamed]

theorem synthesized_context_values (fc : Option FunctionContext) (r : APIGatewayRequest) :
    valuesNamed (synthesized fc r) (lit "x-apigateway-serviceid") = [r.Context.ServiceID] ∧
    valuesNamed (synthesized fc r) (lit "x-apigateway-requestid") = [r.Context.RequestID] ∧
    valuesNamed (synthesized fc r) (lit "x-apigateway-method") = [r.Context.Method] ∧
    valuesNamed (synthesized fc r) (lit "x-apigateway-path") = [r.Context.Path] ∧
    valuesNamed (synthesized fc r) (lit "x-apigateway-sourceip") = [r.Context.SourceIP] ∧
    valuesNamed (synthesized fc r) (lit "x-forwarded-for") = [r.Context.SourceIP] ∧
    valuesNamed (synthesized fc r) (lit "x-apigateway-stage") = [r.Context.Stage] := by
  obtain ⟨hs, me, p, q, b, ⟨c1, c2, c3, c4, c5, c6, ⟨sec⟩⟩⟩ := r
  cases fc <;> cases sec <;> exact ⟨rfl, rfl, rfl, rfl, rfl, rfl, rfl⟩

theorem synthesized_secret_values (fc : Option FunctionContext) (r : APIGatewayRequest) :
    valuesNamed (synthesized fc r) (lit "x-apigateway-secretid") =
      r.Context.Identity.SecretID.toList := by
  obtain ⟨hs, me, p, q, b, ⟨c1, c2, c3, c4, c5, c6, ⟨sec⟩⟩⟩ := r
  cases fc <;> cases sec <;> rfl

/-- On an allocated empty map the header writes succeed and each of the seven
context headers has the context value among its values. -/
theorem addHeaders_context_mem (fc : Option FunctionContext) (r : APIGatewayRequest) :
    ∃ h, addHeaders fc r (some []) = .ok h ∧
      r.Context.ServiceID ∈ h.Values (lit "x-apigateway-serviceid") ∧
      r.Context.RequestID ∈ h.Values (lit "x-apigateway-requestid") ∧
      r.Context.Method ∈ h.Values (lit "x-apigateway-method") ∧
      r.Context.Path ∈ h.Values (lit "x-apigateway-path") ∧
      r.Context.SourceIP ∈ h.Values (lit "x-apigateway-sourceip") ∧
      r.Context.SourceIP ∈ h.Values (lit "x-forwarded-for") ∧
      r.Context.Stage ∈ h.Values (lit "x-apigateway-stage") := by
  obtain ⟨h, hok, hv⟩ := addHeaders_values fc r
  obtain ⟨s1, s2, s3, s4, s5, s6, s7⟩ := synthesized_context_values fc r
  refine ⟨h, hok, ?_, ?_, ?_, ?_, ?_, ?_, ?_⟩ <;> rw [hv] <;> simp [s1, s2, s3, s4, s5, s6, s7]

/-! ## Lemmas: the header loop of `toAPIGatewayResponse` -/

theorem splitAux_head (sep : Byte) (s cur : GoString) :
    ∃ tl, splitAux sep s cur =
      (cur.reverse ++ s.takeWhile (fun b => decide (b ≠ sep))) :: tl := by
  induction s generalizing cur with
  | nil => exact ⟨[], by simp [splitAux]⟩
  | cons b rest ih =>
    by_cases h : b = sep
    · exact ⟨splitAux sep rest [], by simp [splitAux, h]⟩
    · obtain ⟨tl, htl⟩ := ih (b :: cur)
      exact ⟨tl, by simp [splitAux, h, htl]⟩

/-- The index expression `strings.Split(s, ";")[0]` is in range and is the part of
`s` before its first `;`. -/
theorem index_Split_zero (s : GoString) :
    index (Split s semicolon) 0 = .ok (beforeSemicolon s) := by
  obtain ⟨tl, htl⟩ := splitAux_head semicolon s []
  simp [Split, htl, index, beforeSemicolon]

theorem index_cons_zero {α : Type} (a : α) (l : List α) : index (a :: l) 0 = .ok a := rfl

theorem collectHeader_cons (st : List (GoString × GoString) × GoString) (name first : GoString)
    (more : List GoString) :
    collectHeader st name (first :: more) = .ok (collectStep st (name, first :: more)) := by
  unfold collectHeader collectStep isContentType
  rw [index_cons_zero]
  by_cases h : ToLower name = lit "content-type" <;>
    simp [h, bind, Except.bind, pure, Except.pure, index_Split_zero]

theorem collectHeader_nil (st : List (GoString × GoString) × GoString) (name : GoString) :
    collectHeader st name [] = .error .indexOutOfRange := rfl

/-- When every header has a value the loop does not panic. -/
theorem foldlM_collectHeader (l : List (GoString × List GoString))
    (hne : ∀ e ∈ l, e.2 ≠ []) (st : List (GoString × GoString) × GoString) :
    l.foldlM (fun st entry => collectHeader st entry.1 entry.2) st =
      .ok (l.foldl collectStep st) := by
  induction l generalizing st with
  | nil => rfl
  | cons e l ih =>
    obtain ⟨name, values⟩ := e
    cases values with
    | nil => exact absurd rfl (hne _ (List.mem_cons_self _ _))
    | cons first more =>
      rw [List.foldlM_cons, collectHeader_cons]
      exact ih (fun e he => hne e (List.mem_cons_of_mem _ he)) _

/-- When some header has no value the loop panics with an index out of range. -/
theorem foldlM_collectHeader_empty (l : List (GoString × List GoString))
    (hex : ∃ e ∈ l, e.2 = []) (st : List (GoString × GoString) × GoString) :
    l.foldlM (fun st entry => collectHeader st entry.1 entry.2) st =
      .error .indexOutOfRange := by
  induction l generalizing st with
  | nil => obtain ⟨e, he, _⟩ := hex; cases he
  | cons e l ih =>
    obtain ⟨name, values⟩ := e
    cases values with
    | nil => rw [List.foldlM_cons, collectHeader_nil]; rfl
    | cons first more =>
      rw [List.foldlM_cons, collectHeader_cons]
      refine ih ?_ _
      obtain ⟨e, he, hnil⟩ := hex
      rcases List.mem_cons.mp he with h | h
      · subst h; cases hnil
      · exact ⟨e, h, hnil⟩

theorem foldl_collectStep_fst (l : List (GoString × List GoString))
    (st : List (GoString × GoString) × GoString) :
    (l.foldl collectStep st).1 = l.foldl (fun m e => mapSet m e.1 (e.2.headD [])) st.1 := by
  induction l generalizing st with
  | nil => rfl
  | cons e l ih => rw [List.foldl_cons, ih]; rfl

theorem foldl_collectStep_snd_none (l : List (GoString × List GoString))
    (hl : l.filter (fun e => isContentType e.1) = [])
    (st : List (GoString × GoString) × GoString) :
    (l.foldl collectStep st).2 = st.2 := by
  induction l generalizing st with
  | nil => rfl
  | cons e l ih =>
    by_cases h : isContentType e.1 = true
    · simp [List.filter_cons, h] at hl
    · simp only [List.filter_cons, h] at hl
      rw [List.foldl_cons, ih hl]
      simp [collectStep, h]

/-- With a single header named `content-type` (in any letter case), the content
type after the loop is the part of that header's first value before the first
`;`. -/
theorem foldl_collectStep_snd_one (l : List (GoString × List GoString))
    (e0 : GoString × List GoString)
    (hl : l.filter (fun e => isContentType e.1) = [e0])
    (st : List (GoString × GoString) × GoString) :
    (l.foldl collectStep st).2 = beforeSemicolon (e0.2.headD []) := by
  induction l generalizing st with
  | nil => simp at hl
  | cons e l ih =>
    by_cases h : isContentType e.1 = true
    · simp only [List.filter_cons, h, if_true, List.cons.injEq] at hl
      rw [List.foldl_cons, foldl_collectStep_snd_none l hl.2, ← hl.1]
      simp [collectStep, h]
    · simp only [List.filter_cons, h] at hl
      rw [List.foldl_cons]
      exact ih hl _

/-- What `toAPIGatewayResponse` returns when every header has a value. -/
theorem toAPIGatewayResponse_ok (h : Handler) (r : Response) (hne : ∀ e ∈ r.Header, e.2 ≠ []) :
    h.toAPIGatewayResponse r =
      .ok (match r.Body with
        | (_, some err) => (errorResponse, some err)
        | (body, none) =>
          ({ IsBase64Encoded :=
               decide ((r.Header.foldl collectStep ([], [])).2 ∈ h.binaryMIMETypes),
             StatusCode := r.StatusCode,
             Headers := some (r.Header.foldl collectStep ([], [])).1,
             Body := if decide ((r.Header.foldl collectStep ([], [])).2 ∈ h.binaryMIMETypes)
               then EncodeToString body else body }, none)) := by
  unfold Handler.toAPIGatewayResponse collectHeaders
  rw [foldlM_collectHeader _ hne]
  obtain ⟨body, err⟩ := r.Body
  cases err <;> rfl

/-- When some header has no value `toAPIGatewayResponse` panics. -/
theorem toAPIGatewayResponse_empty (h : Handler) (r : Response)
    (hex : ∃ e ∈ r.Header, e.2 = []) :
    h.toAPIGatewayResponse r = .error .indexOutOfRange := by
  unfold Handler.toAPIGatewayResponse collectHeaders
  rw [foldlM_collectHeader_empty _ hex]
  rfl

/-- An envelope is returned only when every header has a value. -/
theorem nonempty_of_toAPIGatewayResponse_ok (h : Handler) (r : Response)
    (res : APIGatewayResponse × Option GoError) (hres : h.toAPIGatewayResponse r = .ok res) :
    ∀ e ∈ r.Header, e.2 ≠ [] := by
  intro e he hnil
  rw [toAPIGatewayResponse_empty h r ⟨e, he, hnil⟩] at hres
  cases hres

/-! ## Lemmas: the header map of the envelope -/

theorem mapSet_of_not_mem {β : Type} (m : List (GoString × β)) (k : GoString) (v : β)
    (hk : k ∉ m.map Prod.fst) : mapSet m k v = m ++ [(k, v)] := by
  induction m with
  | nil => rfl
  | cons e m ih =>
    obtain ⟨a, b⟩ := e
    simp only [List.map_cons, List.mem_cons, not_or] at hk
    simp [mapSet, Ne.symm hk.1, ih hk.2]

/-- With distinct names the loop stores one entry per header, in order: the name
with the first value. -/
theorem foldl_mapSet_nodup (l : List (GoString × List GoString)) (m : List (GoString × GoString))
    (hnd : (m.map Prod.fst ++ l.map Prod.fst).Nodup) :
    l.foldl (fun m e => mapSet m e.1 (e.2.headD [])) m =
      m ++ l.map (fun e => (e.1, e.2.headD [])) := by
  induction l generalizing m with
  | nil => simp
  | cons e l ih =>
    have hk : e.1 ∉ m.map Prod.fst := by
      intro hmem
      have := List.nodup_append.mp hnd
      exact this.2.2 hmem (by simp)
    rw [List.foldl_cons, mapSet_of_not_mem m e.1 _ hk, ih]
    · simp
    · simp only [List.map_append, List.map_cons, List.map_nil, List.append_assoc,
        List.singleton_append]
      simpa using hnd

theorem mapHas_map_iff {β γ : Type} (l : List (GoString × β)) (f : GoString × β → γ)
    (k : GoString) :
    mapHas (l.map (fun e => (e.1, f e))) k = true ↔ k ∈ l.map Prod.fst := by
  induction l with
  | nil => simp [mapHas]
  | cons e l ih =>
    by_cases h : e.1 = k
    · simp [mapHas, h]
    · simp [mapHas, h, ih, Ne.symm h]

theorem mapGet_map_of_mem {β γ : Type} (l : List (GoString × β)) (f : GoString × β → γ)
    (hnd : (l.map Prod.fst).Nodup) (e : GoString × β) (he : e ∈ l) (d : γ) :
    mapGet (l.map (fun e => (e.1, f e))) e.1 d = f e := by
  induction l with
  | nil => cases he
  | cons a l ih =>
    simp only [List.map_cons, List.nodup_cons] at hnd
    rcases List.mem_cons.mp he with h | h
    · subst h; simp [mapGet]
    · have hne : a.1 ≠ e.1 := by
        intro heq
        exact hnd.1 (heq ▸ List.mem_map_of_mem Prod.fst h)
      simp [mapGet, hne, ih hnd.2 h]

/-! ## Lemmas: base64 -/

set_option maxRecDepth 100000 in
theorem decChar_encChar_fin :
    ∀ i : Fin 64, decChar (encChar i.val) = some i.val ∧ encChar i.val ≠ padChar := by
  decide

theorem decChar_encChar (i : Nat) (hi : i < 64) : decChar (encChar i) = some i :=
  (decChar_encChar_fin ⟨i, hi⟩).1

theorem encChar_ne_padChar (i : Nat) (hi : i < 64) : encChar i ≠ padChar :=
  (decChar_encChar_fin ⟨i, hi⟩).2

theorem ofNat_val (a : Byte) : (Fin.ofNat a.val : Byte) = a := by
  apply Fin.ext; simp [Fin.ofNat]

theorem ofNat_of_eq (n : Nat) (a : Byte) (h : n = a.val) : (Fin.ofNat n : Byte) = a := by
  subst h; exact ofNat_val a

theorem DecodeString_group (v0 v1 v2 v3 : Nat) (h0 : v0 < 64) (h1 : v1 < 64) (h2 : v2 < 64)
    (h3 : v3 < 64) (tail : GoString) (bs : List Byte) (ht : DecodeString tail = some bs) :
    DecodeString (encChar v0 :: encChar v1 :: encChar v2 :: encChar v3 :: tail) =
      some (Fin.ofNat ((((v0 * 64 + v1) * 64 + v2) * 64 + v3) / 65536) ::
            Fin.ofNat ((((v0 * 64 + v1) * 64 + v2) * 64 + v3) / 256 % 256) ::
            Fin.ofNat ((((v0 * 64 + v1) * 64 + v2) * 64 + v3) % 256) :: bs) := by
  cases tail with
  | nil =>
    simp only [DecodeString] at ht
    cases ht
    simp [DecodeString, decChar_encChar, h0, h1, h2, h3, encChar_ne_padChar]
  | cons t tail =>
    simp [DecodeString, decChar_encChar, h0, h1, h2, h3, ht]

/-- Decoding inverts encoding, for every sequence of bytes. -/
theorem DecodeString_EncodeToString (bs : List Byte) :
    DecodeString (EncodeToString bs) = some bs := by
  induction bs using EncodeToString.induct with
  | case1 a b c rest ih =>
    have ha := a.isLt
    have hb := b.isLt
    have hc := c.isLt
    rw [EncodeToString]
    rw [DecodeString_group _ _ _ _ (Nat.mod_lt _ (by decide)) (Nat.mod_lt _ (by decide))
      (Nat.mod_lt _ (by decide)) (Nat.mod_lt _ (by decide)) _ _ ih]
    congr 2
    · exact ofNat_of_eq _ _ (by omega)
    · congr 1
      · exact ofNat_of_eq _ _ (by omega)
      · congr 1
        exact ofNat_of_eq _ _ (by omega)
  | case2 a b =>
    have ha := a.isLt
    have hb := b.isLt
    have e0 : (a.val * 65536 + b.val * 256) / 262144 % 64 < 64 := Nat.mod_lt _ (by decide)
    have e1 : (a.val * 65536 + b.val * 256) / 4096 % 64 < 64 := Nat.mod_lt _ (by decide)
    have e2 : (a.val * 65536 + b.val * 256) / 64 % 64 < 64 := Nat.mod_lt _ (by decide)
    simp only [EncodeToString, DecodeString, decChar_encChar _ e0, decChar_encChar _ e1,
      decChar_encChar _ e2, encChar_ne_padChar _ e2, false_and, if_false, if_true]
    congr 2
    · exact ofNat_of_eq _ _ (by omega)
    · congr 1
      exact ofNat_of_eq _ _ (by omega)
  | case3 a =>
    have ha := a.isLt
    have e0 : (a.val * 65536) / 262144 % 64 < 64 := Nat.mod_lt _ (by decide)
    have e1 : (a.val * 65536) / 4096 % 64 < 64 := Nat.mod_lt _ (by decide)
    simp only [EncodeToString, DecodeString, decChar_encChar _ e0, decChar_encChar _ e1,
      and_self, if_true]
    congr 2
    exact ofNat_of_eq _ _ (by omega)
  | case4 => rfl

/-- The test vectors of RFC 4648, section 10. -/
theorem EncodeToString_rfc4648_vectors :
    EncodeToString (lit "") = lit "" ∧
    EncodeToString (lit "f") = lit "Zg==" ∧
    EncodeToString (lit "fo") = lit "Zm8=" ∧
    EncodeToString (lit "foo") = lit "Zm9v" ∧
    EncodeToString (lit "foob") = lit "Zm9vYg==" ∧
    EncodeToString (lit "fooba") = lit "Zm9vYmE=" ∧
    EncodeToString (lit "foobar") = lit "Zm9vYmFy" := by
  decide

/-! ## The translation of the request -/

/-- C1 (defect of the code). At an event whose request context is filled in,
`toHTTPRequest` builds no request: `req.Header` is the nil map and the first write
to it panics. The same header writes on an allocated map succeed and store each
of the seven context headers with the value of the context. -/
theorem toHTTPRequest_contextEvent_panics :
    toHTTPRequest none contextEvent 8080 = .error .assignNilMap ∧
    ∃ h, addHeaders none contextEvent (some []) = .ok h ∧
      h.Values (lit "x-apigateway-serviceid") = [lit "service-1"] ∧
      h.Values (lit "x-apigateway-requestid") = [lit "req-1"] ∧
      h.Values (lit "x-apigateway-method") = [lit "GET"] ∧
      h.Values (lit "x-apigateway-path") = [lit "/users"] ∧
      h.Values (lit "x-apigateway-sourceip") = [lit "10.0.0.1"] ∧
      h.Values (lit "x-forwarded-for") = [lit "10.0.0.1"] ∧
      h.Values (lit "x-apigateway-stage") = [lit "release"] := by
  refine ⟨by decide, _, addHeaders_allocated none contextEvent [], ?_⟩
  decide

/-- C2, counterexample. For an event without secret ID whose own headers carry
`x-apigateway-secretid`, `toHTTPRequest` builds no request, and the header
writes, run on an allocated map, leave that header present with the value the
event gave. -/
theorem secretid_forged_counterexample :
    forgedSecretEvent.Context.Identity.SecretID = none ∧
    toHTTPRequest none forgedSecretEvent 8080 = .error .assignNilMap ∧
    ∃ h, addHeaders none forgedSecretEvent (some []) = .ok h ∧
      h.Values (lit "x-apigateway-secretid") = [lit "forged"] := by
  refine ⟨rfl, by decide, _, addHeaders_allocated none forgedSecretEvent [], ?_⟩
  decide

/-- C2, as amended. The header writes of `toHTTPRequest`, run on an allocated
empty header map, succeed and leave under `x-apigateway-secretid` the values of
the event's own headers of that name, followed by the pointed-to secret ID when
`SecretID` is not nil and by nothing when it is nil. -/
theorem addHeaders_secretid (fc : Option FunctionContext) (r : APIGatewayRequest) :
    ∃ h, addHeaders fc r (some []) = .ok h ∧
      h.Values (lit "x-apigateway-secretid") =
        valuesNamed r.Headers (lit "x-apigateway-secretid") ++
          (match r.Context.Identity.SecretID with
            | some secretID => [secretID]
            | none => []) := by
  obtain ⟨h, hok, hv⟩ := addHeaders_values fc r
  refine ⟨h, hok, ?_⟩
  rw [hv, synthesized_secret_values]
  cases r.Context.Identity.SecretID <;> rfl

/-- C3 (defect of the code). For the query map `{"a": "1", "b": ["x","y"]}`, in
either order of iteration, `toQueryString` returns no string: `values` is the
nil map and the first `Add` panics. The same loop on an allocated map gives
`a=1&b=x&b=y`. -/
theorem toQueryString_queryAB_panics :
    toQueryString queryAB = .error .assignNilMap ∧
    toQueryString queryBA = .error .assignNilMap ∧
    (addQueryValues (some []) queryAB).map Values.Encode = .ok (lit "a=1&b=x&b=y") ∧
    (addQueryValues (some []) queryBA).map Values.Encode = .ok (lit "a=1&b=x&b=y") := by
  decide

/-- C9 (defect of the code). For the query map `{"a": "1", "n": 42}`,
`toQueryString` does not succeed: it panics on the write of `a` to the nil map,
as it does without the entry `n`. The same loop on an allocated map skips `n`
and gives `a=1`. -/
theorem toQueryString_queryMixed_panics :
    toQueryString queryMixed = .error .assignNilMap ∧
    toQueryString (queryMixed.filter (fun e => e.2.isSupported)) = .error .assignNilMap ∧
    (addQueryValues (some []) queryMixed).map Values.Encode = .ok (lit "a=1") := by
  decide

/-- C10, counterexample. For an event whose own headers carry `X-Forwarded-For`,
`toHTTPRequest` builds no request, and the header writes, run on an allocated
map, leave two values under `x-forwarded-for`. -/
theorem forwarded_for_counterexample :
    toHTTPRequest none forwardedEvent 8080 = .error .assignNilMap ∧
    ∃ h, addHeaders none forwardedEvent (some []) = .ok h ∧
      h.Values (lit "x-forwarded-for") = [lit "1.2.3.4", lit "10.0.0.1"] := by
  refine ⟨by decide, _, addHeaders_allocated none forwardedEvent [], ?_⟩
  decide

/-- C10, as amended. The header writes of `toHTTPRequest`, run on an allocated
empty header map, succeed and leave under each of the seven synthesized names
the values of the event's own headers of that name followed by exactly one
value, the field of the request context (also when it is empty). -/
theorem addHeaders_context_values (fc : Option FunctionContext) (r : APIGatewayRequest) :
    ∃ h, addHeaders fc r (some []) = .ok h ∧
      h.Values (lit "x-apigateway-serviceid") =
        valuesNamed r.Headers (lit "x-apigateway-serviceid") ++ [r.Context.ServiceID] ∧
      h.Values (lit "x-apigateway-requestid") =
        valuesNamed r.Headers (lit "x-apigateway-requestid") ++ [r.Context.RequestID] ∧
      h.Values (lit "x-apigateway-method") =
        valuesNamed r.Headers (lit "x-apigateway-method") ++ [r.Context.Method] ∧
      h.Values (lit "x-apigateway-path") =
        valuesNamed r.Headers (lit "x-apigateway-path") ++ [r.Context.Path] ∧
      h.Values (lit "x-apigateway-sourceip") =
        valuesNamed r.Headers (lit "x-apigateway-sourceip") ++ [r.Context.SourceIP] ∧
      h.Values (lit "x-forwarded-for") =
        valuesNamed r.Headers (lit "x-forwarded-for") ++ [r.Context.SourceIP] ∧
      h.Values (lit "x-apigateway-stage") =
        valuesNamed r.Headers (lit "x-apigateway-stage") ++ [r.Context.Stage] := by
  obtain ⟨h, hok, hv⟩ := addHeaders_values fc r
  obtain ⟨s1, s2, s3, s4, s5, s6, s7⟩ := synthesized_context_values fc r
  refine ⟨h, hok, ?_, ?_, ?_, ?_, ?_, ?_, ?_⟩ <;> rw [hv] <;> simp [s1, s2, s3, s4, s5, s6, s7]

/-! ## The dispatch -/

/-- C7 (defect of the code). With a handler whose transport call always fails,
`Handle` returns neither the error nor the 500 envelope: it panics while the
request is built, before the transport call. Lines 89-93 by themselves return
the 500 envelope and the error for every request. -/
theorem Handle_refusingHandler_panics :
    refusingHandler.Handle none emptyEvent = .error .assignNilMap ∧
    ∀ req, refusingHandler.send req = .ok (errorResponse, some connectionRefused) :=
  ⟨Handle_eq_panic _ _ _, fun req => send_transport_error _ req _ rfl⟩

/-! ## The translation of the response -/

/-- What `toAPIGatewayResponse` returns when every header has a value and the
body is read to its end. -/
theorem toAPIGatewayResponse_read (h : Handler) (r : Response)
    (hne : ∀ e ∈ r.Header, e.2 ≠ []) (hbody : r.Body.2 = none) :
    h.toAPIGatewayResponse r =
      .ok ({ IsBase64Encoded :=
               decide ((r.Header.foldl collectStep ([], [])).2 ∈ h.binaryMIMETypes),
             StatusCode := r.StatusCode,
             Headers := some (r.Header.foldl collectStep ([], [])).1,
             Body := if decide ((r.Header.foldl collectStep ([], [])).2 ∈ h.binaryMIMETypes)
               then EncodeToString r.Body.1 else r.Body.1 }, none) := by
  rw [toAPIGatewayResponse_ok h r hne]
  obtain ⟨sc, hdr, body, err⟩ := r
  simp only at hbody
  subst hbody
  rfl

/-- What `toAPIGatewayResponse` returns when every header has a value and
reading the body fails. -/
theorem toAPIGatewayResponse_unread (h : Handler) (r : Response)
    (hne : ∀ e ∈ r.Header, e.2 ≠ []) (err : GoError) (hbody : r.Body.2 = some err) :
    h.toAPIGatewayResponse r = .ok (errorResponse, some err) := by
  rw [toAPIGatewayResponse_ok h r hne]
  obtain ⟨sc, hdr, body, err'⟩ := r
  simp only at hbody
  subst hbody
  rfl

/-- C4, counterexample. With `image/png` registered, a response with
`Content-Type: IMAGE/PNG` gets `IsBase64Encoded` false although its content type
in lower case is registered; and a response with `Content-Type: image/png`
whose body cannot be read gets the 500 envelope, with `IsBase64Encoded`
false. -/
theorem isBase64Encoded_counterexample :
    (ToLower (beforeSemicolon (lit "IMAGE/PNG")) ∈ binaryHandler.binaryMIMETypes ∧
      ∃ env, binaryHandler.toAPIGatewayResponse upperCaseResponse = .ok (env, none) ∧
        env.IsBase64Encoded = false) ∧
    (beforeSemicolon (lit "image/png") ∈ binaryHandler.binaryMIMETypes ∧
      ∃ env err, binaryHandler.toAPIGatewayResponse unreadableResponse = .ok (env, some err) ∧
        env.IsBase64Encoded = false) := by
  refine ⟨⟨by decide, _, toAPIGatewayResponse_read _ _ (by decide) rfl, by decide⟩,
    ⟨by decide, _, _, toAPIGatewayResponse_unread _ _ (by decide) unexpectedEOF rfl, rfl⟩⟩

/-- C4, as amended. For a response whose body is read to its end and which has
one header whose name is `content-type` in lower case, with at least one value:
every envelope `toAPIGatewayResponse` returns has `IsBase64Encoded` true if and
only if the part of that header's first value before the first `;` is, byte for
byte, a key of `binaryMIMETypes`; and an envelope is returned when every header
has a value. -/
theorem toAPIGatewayResponse_isBase64Encoded (h : Handler) (r : Response)
    (name first : GoString) (more : List GoString)
    (hct : r.Header.filter (fun e => isContentType e.1) = [(name, first :: more)])
    (hbody : r.Body.2 = none) :
    (∀ env err, h.toAPIGatewayResponse r = .ok (env, err) →
      (env.IsBase64Encoded = true ↔ beforeSemicolon first ∈ h.binaryMIMETypes)) ∧
    ((∀ e ∈ r.Header, e.2 ≠ []) → ∃ env, h.toAPIGatewayResponse r = .ok (env, none)) := by
  constructor
  · intro env err hres
    have hne := nonempty_of_toAPIGatewayResponse_ok h r _ hres
    rw [toAPIGatewayResponse_read h r hne hbody] at hres
    injection hres with hres
    injection hres with henv _
    subst henv
    simp [foldl_collectStep_snd_one _ _ hct]
  · intro hne
    exact ⟨_, toAPIGatewayResponse_read h r hne hbody⟩

/-- C4, witness: the response with
`Content-Type: application/octet-stream; charset=binary`. -/
theorem toAPIGatewayResponse_isBase64Encoded_witness :
    octetResponse.Header.filter (fun e => isContentType e.1) =
      [(lit "Content-Type", [lit "application/octet-stream; charset=binary"])] ∧
    octetResponse.Body.2 = none ∧
    (∀ env err, binaryHandler.toAPIGatewayResponse octetResponse = .ok (env, err) →
      (env.IsBase64Encoded = true ↔
        beforeSemicolon (lit "application/octet-stream; charset=binary") ∈
          binaryHandler.binaryMIMETypes)) ∧
    ((∀ e ∈ octetResponse.Header, e.2 ≠ []) →
      ∃ env, binaryHandler.toAPIGatewayResponse octetResponse = .ok (env, none)) :=
  ⟨by decide, rfl,
    toAPIGatewayResponse_isBase64Encoded binaryHandler octetResponse (lit "Content-Type")
      (lit "application/octet-stream; charset=binary") [] (by decide) rfl⟩

/-- C5. For a response whose body is read to its end, every envelope
`toAPIGatewayResponse` returns comes without error and has as `Body` the
standard base64 encoding of the payload when `IsBase64Encoded` is true and the
payload bytes themselves when it is false; and an envelope is returned when
every header has a value. -/
theorem toAPIGatewayResponse_body (h : Handler) (r : Response) (hbody : r.Body.2 = none) :
    (∀ env err, h.toAPIGatewayResponse r = .ok (env, err) →
      err = none ∧
      env.Body = if env.IsBase64Encoded then EncodeToString r.Body.1 else r.Body.1) ∧
    ((∀ e ∈ r.Header, e.2 ≠ []) → ∃ env, h.toAPIGatewayResponse r = .ok (env, none)) := by
  constructor
  · intro env err hres
    have hne := nonempty_of_toAPIGatewayResponse_ok h r _ hres
    rw [toAPIGatewayResponse_read h r hne hbody] at hres
    injection hres with hres
    injection hres with henv herr
    subst henv
    exact ⟨herr.symm, rfl⟩
  · intro hne
    exact ⟨_, toAPIGatewayResponse_read h r hne hbody⟩

/-- C5, witness: the two examples of the claim. With
`application/octet-stream` registered, the response with
`Content-Type: application/octet-stream; charset=binary` gets the base64 text of
its payload; with no registered type, the response with
`Content-Type: text/plain` gets its payload `hello` unchanged. -/
theorem toAPIGatewayResponse_body_witness :
    octetResponse.Body.2 = none ∧
    (∃ env, binaryHandler.toAPIGatewayResponse octetResponse = .ok (env, none) ∧
      env.IsBase64Encoded = true ∧ env.Body = EncodeToString octetResponse.Body.1 ∧
      env.Body = lit "AP8QgAc=") ∧
    (∃ env, plainHandler.toAPIGatewayResponse textResponse = .ok (env, none) ∧
      env.IsBase64Encoded = false ∧ env.Body = lit "hello") := by
  have hoct := toAPIGatewayResponse_read binaryHandler octetResponse (by decide) rfl
  have htxt := toAPIGatewayResponse_read plainHandler textResponse (by decide) rfl
  have hflag : decide ((octetResponse.Header.foldl collectStep ([], [])).2 ∈
      binaryHandler.binaryMIMETypes) = true := by decide
  have hflag2 : decide ((textResponse.Header.foldl collectStep ([], [])).2 ∈
      plainHandler.binaryMIMETypes) = false := by decide
  refine ⟨rfl, ⟨_, hoct, hflag, ?_, ?_⟩, ⟨_, htxt, hflag2, ?_⟩⟩
  · have := ((toAPIGatewayResponse_body binaryHandler octetResponse rfl).1 _ _ hoct).2
    rw [this]
    simp only [hflag, if_true]
  · simp only [hflag, if_true]
    decide
  · have := ((toAPIGatewayResponse_body plainHandler textResponse rfl).1 _ _ htxt).2
    rw [this]
    simp only [hflag2]
    decide

/-- C6. Round trip: whenever `toAPIGatewayResponse` returns an envelope with
`IsBase64Encoded` true, standard base64 decoding of its `Body` succeeds and
gives the payload bytes of the response. -/
theorem toAPIGatewayResponse_round_trip (h : Handler) (r : Response)
    (env : APIGatewayResponse) (err : Option GoError)
    (hres : h.toAPIGatewayResponse r = .ok (env, err))
    (hflag : env.IsBase64Encoded = true) :
    DecodeString env.Body = some r.Body.1 := by
  have hne := nonempty_of_toAPIGatewayResponse_ok h r _ hres
  cases hb : r.Body.2 with
  | some e =>
    rw [toAPIGatewayResponse_unread h r hne e hb] at hres
    injection hres with hres
    injection hres with henv _
    subst henv
    cases hflag
  | none =>
    rw [toAPIGatewayResponse_read h r hne hb] at hres
    injection hres with hres
    injection hres with henv _
    subst henv
    simp only at hflag
    simp only [hflag, if_true]
    exact DecodeString_EncodeToString _

/-- C6, witness: the binary response with the payload `00 ff 10 80 07`. -/
theorem toAPIGatewayResponse_round_trip_witness :
    binaryHandler.toAPIGatewayResponse octetResponse =
      .ok ({ IsBase64Encoded := true, StatusCode := 200,
             Headers := some [(lit "Content-Type",
               lit "application/octet-stream; charset=binary")],
             Body := lit "AP8QgAc=" }, none) ∧
    DecodeString (lit "AP8QgAc=") = some [0, 255, 16, 128, 7] :=
  ⟨by decide,
    toAPIGatewayResponse_round_trip binaryHandler octetResponse
      { IsBase64Encoded := true, StatusCode := 200,
        Headers := some [(lit "Content-Type", lit "application/octet-stream; charset=binary")],
        Body := lit "AP8QgAc=" } none (by decide) rfl⟩

/-- C8, counterexample. A response whose headers all have values but whose body
cannot be read gets the 500 envelope: its header map is nil and has none of the
names of the response. -/
theorem envelope_headers_counterexample :
    (∀ e ∈ unreadableResponse.Header, e.2 ≠ []) ∧
    ∃ env err, binaryHandler.toAPIGatewayResponse unreadableResponse = .ok (env, some err) ∧
      env.Headers = none :=
  ⟨by decide, _, _, toAPIGatewayResponse_unread _ _ (by decide) unexpectedEOF rfl, rfl⟩

/-- C8, as amended. For a response whose headers (a map: the names are distinct)
all have at least one value and whose body is read to its end,
`toAPIGatewayResponse` returns an envelope whose header map has exactly the names
of the response as keys and maps each name to the first of its values. -/
theorem toAPIGatewayResponse_headers (h : Handler) (r : Response)
    (hne : ∀ e ∈ r.Header, e.2 ≠ []) (hnd : (r.Header.map Prod.fst).Nodup)
    (hbody : r.Body.2 = none) :
    ∃ env hdrs, h.toAPIGatewayResponse r = .ok (env, none) ∧ env.Headers = some hdrs ∧
      (∀ name, mapHas hdrs name = true ↔ name ∈ r.Header.map Prod.fst) ∧
      (∀ name first more, (name, first :: more) ∈ r.Header → mapGet hdrs name [] = first) := by
  refine ⟨_, _, toAPIGatewayResponse_read h r hne hbody, rfl, ?_, ?_⟩
  · intro name
    rw [foldl_collectStep_fst, foldl_mapSet_nodup _ _ (by simpa using hnd)]
    simpa using mapHas_map_iff r.Header (fun e => e.2.headD []) name
  · intro name first more hmem
    rw [foldl_collectStep_fst, foldl_mapSet_nodup _ _ (by simpa using hnd)]
    simpa using mapGet_map_of_mem r.Header (fun e => e.2.headD []) hnd _ hmem []

/-- C8, witness: a response with two values under `Set-Cookie`. -/
theorem toAPIGatewayResponse_headers_witness :
    (∀ e ∈ cookieResponse.Header, e.2 ≠ []) ∧ (cookieResponse.Header.map Prod.fst).Nodup ∧
    cookieResponse.Body.2 = none ∧
    ∃ env hdrs, plainHandler.toAPIGatewayResponse cookieResponse = .ok (env, none) ∧
      env.Headers = some hdrs ∧
      (∀ name, mapHas hdrs name = true ↔ name ∈ cookieResponse.Header.map Prod.fst) ∧
      (∀ name first more, (name, first :: more) ∈ cookieResponse.Header →
        mapGet hdrs name [] = first) :=
  ⟨by decide, by decide, rfl,
    toAPIGatewayResponse_headers plainHandler cookieResponse (by decide) (by decide) rfl⟩



/-! ## Lemmas: the URL -/

theorem toQueryString_nil : toQueryString [] = .ok [] := rfl

/-- The request of `toHTTPRequest` is the URL literal, the header writes on the
nil map, and the method and body of the event. -/
theorem toHTTPRequest_eq (fc : Option FunctionContext) (r : APIGatewayRequest) (port : Int) :
    toHTTPRequest fc r port =
      (requestURL r port).bind (fun url =>
        (addHeaders fc r none).bind (fun header =>
          .ok { Method := r.Method, URL := url, Header := header, Body := r.Body })) := by
  unfold toHTTPRequest requestURL
  cases toQueryString r.QueryString <;> rfl

/-- The URL literal, when the query string is built, has the fixed scheme and
host, the port in decimal, an empty `Path` and the path of the event in
`RawPath`. -/
theorem requestURL_ok (r : APIGatewayRequest) (port : Int) (u : URL)
    (hu : requestURL r port = .ok u) :
    u.Scheme = lit "http" ∧ u.Host = lit "127.0.0.1" ++ lit ":" ++ lit (toString port) ∧
      u.Path = [] ∧ u.RawPath = r.Path := by
  unfold requestURL at hu
  cases hq : toQueryString r.QueryString with
  | error e => rw [hq] at hu; cases hu
  | ok q =>
    rw [hq] at hu
    injection hu with hu
    subst hu
    exact ⟨rfl, rfl, rfl, rfl⟩

/-- For an event without query entries the URL literal is built and its query is
empty. -/
theorem requestURL_of_no_query (r : APIGatewayRequest) (port : Int) (hq : r.QueryString = []) :
    requestURL r port =
      .ok { Scheme := lit "http", Host := hostPort port, Path := [], RawPath := r.Path,
            RawQuery := [] } := by
  unfold requestURL
  rw [hq]
  rfl

theorem unescapePath_eq_nil (s : GoString) (h : unescapePath s = some []) : s = [] := by
  cases s with
  | nil => rfl
  | cons b rest =>
    exfalso
    unfold unescapePath at h
    split at h
    · split at h
      · split at h
        · simp at h
        · cases h
      · cases h
    · simp at h

/-- A URL whose `Path` is empty has an empty escaped path, whatever its
`RawPath`. -/
theorem EscapedPath_of_Path_nil (u : URL) (hp : u.Path = []) : u.EscapedPath = [] := by
  unfold URL.EscapedPath
  rw [hp]
  split
  · rename_i h
    exact absurd (unescapePath_eq_nil _ h.2.2) h.1
  · rfl

theorem synthesized_scf_values (fc : Option FunctionContext) (r : APIGatewayRequest) :
    valuesNamed (synthesized fc r) (lit "x-scf-requestid") =
      (match fc with
        | some funcCtx => [funcCtx.RequestID]
        | none => []) := by
  obtain ⟨hs, me, p, q, b, ⟨c1, c2, c3, c4, c5, c6, ⟨sec⟩⟩⟩ := r
  cases fc <;> cases sec <;> rfl

theorem mapHas_mapSet {β : Type} (m : List (GoString × β)) (k k' : GoString) (v : β) :
    mapHas (mapSet m k v) k' = true ↔ k = k' ∨ mapHas m k' = true := by
  induction m with
  | nil => simp [mapSet, mapHas]
  | cons e m ih =>
    obtain ⟨a, b⟩ := e
    by_cases h1 : a = k
    · subst h1
      by_cases h2 : a = k' <;> simp [mapSet, mapHas, h2]
    · by_cases h2 : a = k'
      · subst h2
        simp [mapSet, mapHas, h1]
      · simp [mapSet, mapHas, h1, h2, ih]

/-- Every key of the header map after a run of `Add` was a key before or is the
canonical form of an added name. -/
theorem mapHas_foldl_addEntry (l : List (GoString × GoString))
    (m : List (GoString × List GoString)) (k : GoString)
    (hk : mapHas (l.foldl (fun m e => addEntry m e.1 e.2) m) k = true) :
    mapHas m k = true ∨ ∃ e ∈ l, k = CanonicalMIMEHeaderKey e.1 := by
  induction l generalizing m with
  | nil => left; exact hk
  | cons e l ih =>
    rw [List.foldl_cons] at hk
    rcases ih _ hk with h | ⟨e', he', hke⟩
    · rw [addEntry, mapHas_mapSet] at h
      rcases h with h | h
      · right; exact ⟨e, List.mem_cons_self _ _, h.symm⟩
      · left; exact h
    · right; exact ⟨e', List.mem_cons_of_mem _ he', hke⟩

/-! ## The translation of the request, continued -/

/-- C11 (defect of the code). For the event without query entries
`toQueryString` returns the empty string and the URL literal has an empty
query, but `toHTTPRequest` builds no request to carry that URL: it panics on
the write to the nil header map. -/
theorem toHTTPRequest_emptyQuery_panics :
    emptyEvent.QueryString = [] ∧ toQueryString emptyEvent.QueryString = .ok [] ∧
    (∃ u, requestURL emptyEvent 8080 = .ok u ∧ u.RawQuery = []) ∧
    toHTTPRequest none emptyEvent 8080 = .error .assignNilMap :=
  ⟨rfl, rfl, ⟨_, requestURL_of_no_query emptyEvent 8080 rfl, rfl⟩, toHTTPRequest_eq_panic _ _ _⟩

/-- C12 (defect of the code). For the event with the path `/users`,
`toHTTPRequest` builds no request: it panics on the write to the nil header
map. The URL literal it prepares holds the path in `RawPath` only and leaves
`Path` empty, so the path that `net/url` renders for it is empty and the
request target is `/`. -/
theorem toHTTPRequest_pathEvent_panics :
    toHTTPRequest none pathEvent 8080 = .error .assignNilMap ∧
    ∃ u, requestURL pathEvent 8080 = .ok u ∧ u.RawPath = lit "/users" ∧ u.Path = [] ∧
      u.EscapedPath = [] ∧ u.RequestURI = lit "/" := by
  refine ⟨toHTTPRequest_eq_panic _ _ _, _, requestURL_of_no_query pathEvent 8080 rfl, ?_⟩
  decide

/-- C13 (defect of the code). For an event and the port 8080, `toHTTPRequest`
builds no request: it panics on the write to the nil header map. The URL
literal it prepares has the scheme `http` and the host `127.0.0.1:8080`. -/
theorem toHTTPRequest_hostPort_panics :
    toHTTPRequest none contextEvent 8080 = .error .assignNilMap ∧
    ∃ u, requestURL contextEvent 8080 = .ok u ∧ u.Scheme = lit "http" ∧
      u.Host = lit "127.0.0.1:8080" := by
  refine ⟨toHTTPRequest_eq_panic _ _ _, _, requestURL_of_no_query contextEvent 8080 rfl, ?_⟩
  decide

/-- C16, counterexample. For an event whose own headers carry
`x-scf-requestid`, and no function context, `toHTTPRequest` builds no request,
and the header writes, run on an allocated map, leave that header present with
the value the event gave. -/
theorem scf_requestid_forged_counterexample :
    toHTTPRequest none scfHeaderEvent 8080 = .error .assignNilMap ∧
    ∃ h, addHeaders none scfHeaderEvent (some []) = .ok h ∧
      h.Values (lit "x-scf-requestid") = [lit "forged"] := by
  refine ⟨toHTTPRequest_eq_panic _ _ _, _, addHeaders_allocated none scfHeaderEvent [], ?_⟩
  decide

/-- C16, as amended. The header writes of `toHTTPRequest`, run on an allocated
empty header map, succeed whether or not a function context was found, and
leave under `x-scf-requestid` the values of the event's own headers of that
name, followed by the request ID of the function context when one was found
and by nothing when none was. -/
theorem addHeaders_scf_requestid (fc : Option FunctionContext) (r : APIGatewayRequest) :
    ∃ h, addHeaders fc r (some []) = .ok h ∧
      h.Values (lit "x-scf-requestid") =
        valuesNamed r.Headers (lit "x-scf-requestid") ++
          (match fc with
            | some funcCtx => [funcCtx.RequestID]
            | none => []) := by
  obtain ⟨h, hok, hv⟩ := addHeaders_values fc r
  refine ⟨h, hok, ?_⟩
  rw [hv, synthesized_scf_values]

/-- C17, counterexample. For an event with the header `x-custom-id: 7`,
`toHTTPRequest` builds no request, and the header writes, run on an allocated
map, store the value under `X-Custom-Id`: the map has no key `x-custom-id`. -/
theorem verbatim_header_counterexample :
    toHTTPRequest none customHeaderEvent 8080 = .error .assignNilMap ∧
    ∃ m, addHeaders none customHeaderEvent (some []) = .ok (some m) ∧
      mapHas m (lit "x-custom-id") = false ∧ mapGet m (lit "X-Custom-Id") [] = [lit "7"] := by
  refine ⟨toHTTPRequest_eq_panic _ _ _, _, addHeaders_allocated none customHeaderEvent [], ?_⟩
  decide

/-- C17, as amended. The header writes of `toHTTPRequest`, run on an allocated
empty header map, succeed, and for every entry `(name, value)` of the event's
headers the value is among the values stored under the canonical MIME form of
the name; every key of the map is the canonical form of the name of an event
header or of a synthesized header. -/
theorem addHeaders_event_header (fc : Option FunctionContext) (r : APIGatewayRequest)
    (name value : GoString) (hmem : (name, value) ∈ r.Headers) :
    ∃ m, addHeaders fc r (some []) = .ok (some m) ∧
      value ∈ mapGet m (CanonicalMIMEHeaderKey name) [] ∧
      ∀ k, mapHas m k = true →
        ∃ e ∈ r.Headers ++ synthesized fc r, k = CanonicalMIMEHeaderKey e.1 := by
  refine ⟨_, addHeaders_allocated fc r [], ?_, ?_⟩
  · rw [mapGet_foldl_addEntry]
    simp only [mapGet, List.nil_append, valuesNamed, List.filter_append, List.map_append,
      List.mem_append, List.mem_map, List.mem_filter]
    left
    exact ⟨(name, value), ⟨hmem, by simp⟩, rfl⟩
  · intro k hk
    rcases mapHas_foldl_addEntry _ _ k hk with h | h
    · simp [mapHas] at h
    · exact h

/-- C17, witness: the event with the header `x-custom-id: 7`. -/
theorem addHeaders_event_header_witness :
    (lit "x-custom-id", lit "7") ∈ customHeaderEvent.Headers ∧
    ∃ m, addHeaders none customHeaderEvent (some []) = .ok (some m) ∧
      lit "7" ∈ mapGet m (CanonicalMIMEHeaderKey (lit "x-custom-id")) [] ∧
      ∀ k, mapHas m k = true →
        ∃ e ∈ customHeaderEvent.Headers ++ synthesized none customHeaderEvent,
          k = CanonicalMIMEHeaderKey e.1 :=
  ⟨by decide,
    addHeaders_event_header none customHeaderEvent (lit "x-custom-id") (lit "7") (by decide)⟩

/-- C18 (defect of the code). `toHTTPRequest` is not total: for the event with
nil `Headers` and nil `QueryString` it panics, and so it does for every event,
port and context, because a write to the nil header map and a write to the nil
query values map both panic. -/
theorem toHTTPRequest_not_total :
    toHTTPRequest none emptyEvent 8080 = .error .assignNilMap ∧
    (∀ fc r port, toHTTPRequest fc r port = .error .assignNilMap) ∧
    (∀ key value, Header.Add none key value = .error .assignNilMap) ∧
    (∀ key value, Values.Add none key value = .error .assignNilMap) :=
  ⟨toHTTPRequest_eq_panic _ _ _, toHTTPRequest_eq_panic, headerAdd_nil, valuesAdd_nil⟩

/-! ## The translation of the response, continued -/

/-- Lines 94-95 of `Handle` after a transport call that returned `resp`: what
`toAPIGatewayResponse` returns for `resp` is returned. -/
theorem send_response (h : Handler) (req : Request) (resp : Response)
    (hdo : h.client req = .ok resp) : h.send req = h.toAPIGatewayResponse resp := by
  unfold Handler.send
  rw [hdo]

/-- C14 (defect of the code). For a response whose body cannot be read,
`toAPIGatewayResponse` returns the read error with the envelope of a transport
failure, status 500 and nothing of the response, and lines 89-95 of `Handle`
return the same; but `Handle` itself panics while the request is built and
returns nothing. -/
theorem Handle_truncatingHandler_panics :
    truncatingHandler.Handle none emptyEvent = .error .assignNilMap ∧
    truncatingHandler.toAPIGatewayResponse unreadableResponse =
      .ok ({ IsBase64Encoded := false, StatusCode := 500, Headers := none, Body := [] },
        some unexpectedEOF) ∧
    (∀ req, truncatingHandler.send req = .ok (errorResponse, some unexpectedEOF)) ∧
    (∀ req, refusingHandler.send req = .ok (errorResponse, some connectionRefused)) := by
  refine ⟨Handle_eq_panic _ _ _, toAPIGatewayResponse_unread _ _ (by decide) _ rfl, ?_, ?_⟩
  · intro req
    rw [send_response truncatingHandler req unreadableResponse rfl]
    exact toAPIGatewayResponse_unread _ _ (by decide) _ rfl
  · intro req
    exact send_transport_error _ req _ rfl

/-- C15, counterexample. With a handler from `NewHandler`, a response of which
two bytes were read before the read failed gets the 500 envelope: its `Body` is
empty, not the bytes read. -/
theorem NewHandler_body_counterexample :
    unreadableResponse.Body.1 = [137, 80] ∧
    ∃ env err, plainHandler.toAPIGatewayResponse unreadableResponse = .ok (env, some err) ∧
      env.IsBase64Encoded = false ∧ env.Body = [] :=
  ⟨rfl, _, _, toAPIGatewayResponse_unread _ _ (by decide) unexpectedEOF rfl, rfl, rfl⟩

/-- C15, as amended. With a handler from `NewHandler` (whatever its client and
port, and without `WithBinaryMIMETypes`), for a response whose body is read to
its end, whatever its headers: every envelope `toAPIGatewayResponse` returns
has `IsBase64Encoded` false and the payload bytes as `Body`; and an envelope is
returned when every header has a value. -/
theorem NewHandler_never_base64 (client : Request → Except GoError Response) (port : Int)
    (r : Response) (hbody : r.Body.2 = none) :
    (∀ env err, (NewHandler client port).toAPIGatewayResponse r = .ok (env, err) →
      env.IsBase64Encoded = false ∧ env.Body = r.Body.1) ∧
    ((∀ e ∈ r.Header, e.2 ≠ []) →
      ∃ env, (NewHandler client port).toAPIGatewayResponse r = .ok (env, none)) := by
  constructor
  · intro env err hres
    have hne := nonempty_of_toAPIGatewayResponse_ok _ r _ hres
    rw [toAPIGatewayResponse_read _ r hne hbody] at hres
    injection hres with hres
    injection hres with henv _
    subst henv
    simp [NewHandler]
  · intro hne
    exact ⟨_, toAPIGatewayResponse_read _ r hne hbody⟩

/-- C15, witness: the response with `Content-Type: application/octet-stream`
and a payload that is not text keeps its payload bytes. -/
theorem NewHandler_never_base64_witness :
    octetResponse.Body.2 = none ∧
    (∀ env err, plainHandler.toAPIGatewayResponse octetResponse = .ok (env, err) →
      env.IsBase64Encoded = false ∧ env.Body = [0, 255, 16, 128, 7]) ∧
    ((∀ e ∈ octetResponse.Header, e.2 ≠ []) →
      ∃ env, plainHandler.toAPIGatewayResponse octetResponse = .ok (env, none)) :=
  ⟨rfl, NewHandler_never_base64 (fun _ => .error connectionRefused) 8080 octetResponse rfl⟩

/-- C19. In `toAPIGatewayResponse`, when every header of the response has at
least one value the function returns without panic; when some header has no
value it panics with an index out of range. The access `values[0]` is in range
exactly when `values` is not empty, and the access `strings.Split(v, ";")[0]` is
in range for every string `v`, the empty one included. -/
theorem toAPIGatewayResponse_index_in_range (h : Handler) (r : Response) :
    ((∀ e ∈ r.Header, e.2 ≠ []) → ∃ res, h.toAPIGatewayResponse r = .ok res) ∧
    ((∃ e ∈ r.Header, e.2 = []) → h.toAPIGatewayResponse r = .error .indexOutOfRange) ∧
    (∀ values : List GoString, (∃ v, index values 0 = .ok v) ↔ values ≠ []) ∧
    (∀ v : GoString, ∃ piece, index (Split v semicolon) 0 = .ok piece) ∧
    index (Split [] semicolon) 0 = .ok [] := by
  refine ⟨fun hne => ⟨_, toAPIGatewayResponse_ok h r hne⟩,
    fun hex => toAPIGatewayResponse_empty h r hex, ?_, fun v => ⟨_, index_Split_zero v⟩, rfl⟩
  intro values
  cases values with
  | nil => simp [index]
  | cons a l => simp [index]

/-- C19, witness: a response whose `Content-Type` is the empty string is
translated, and a response with a header without values panics. -/
theorem toAPIGatewayResponse_index_in_range_witness :
    (∀ e ∈ emptyContentTypeResponse.Header, e.2 ≠ []) ∧
    (∃ res, plainHandler.toAPIGatewayResponse emptyContentTypeResponse = .ok res) ∧
    (∃ e ∈ emptyValuesResponse.Header, e.2 = []) ∧
    plainHandler.toAPIGatewayResponse emptyValuesResponse = .error .indexOutOfRange :=
  ⟨by decide,
    (toAPIGatewayResponse_index_in_range plainHandler emptyContentTypeResponse).1 (by decide),
    by decide,
    (toAPIGatewayResponse_index_in_range plainHandler emptyValuesResponse).2.1 (by decide)⟩

/-! ## The query string and the order of iteration -/

theorem addQueryValue_nil_eq (name : GoString) (value : QueryValue) :
    addQueryValue none name value =
      if value.adds then .error .assignNilMap else .ok none := by
  cases value with
  | str s => rfl
  | strs ss =>
    cases ss with
    | nil => rfl
    | cons a l =>
      exact foldlM_panic_of_first (fun vs value => Values.Add vs name value) none
        .assignNilMap (fun _ => rfl) a l
  | other p => rfl

/-- The loop of `toQueryString` on the nil map panics exactly when some entry
leads to an `Add`. -/
theorem addQueryValues_nil_eq (m : List (GoString × QueryValue)) :
    addQueryValues none m =
      if m.any (fun e => e.2.adds) then .error .assignNilMap else .ok none := by
  induction m with
  | nil => rfl
  | cons e m ih =>
    unfold addQueryValues at ih ⊢
    rw [List.foldlM_cons, addQueryValue_nil_eq]
    by_cases h : e.2.adds = true
    · simp [h]; rfl
    · simp only [h, List.any_cons, Bool.false_or]
      exact ih

/-- The outcome of `toQueryString` does not depend on the order in which the
entries of the map are visited. -/
theorem toQueryString_perm (m m' : List (GoString × QueryValue)) (hp : m.Perm m') :
    toQueryString m = toQueryString m' := by
  unfold toQueryString
  rw [addQueryValues_nil_eq, addQueryValues_nil_eq]
  have : m.any (fun e => e.2.adds) = m'.any (fun e => e.2.adds) := by
    rw [Bool.eq_iff_iff]
    simp only [List.any_eq_true]
    constructor
    · rintro ⟨x, hx, hpx⟩; exact ⟨x, hp.mem_iff.mp hx, hpx⟩
    · rintro ⟨x, hx, hpx⟩; exact ⟨x, hp.mem_iff.mpr hx, hpx⟩
  rw [this]

/-- C20 (defect of the code). For the query map
`{"c": "3", "a": "1", "b": ["x","y"]}`, in two orders of iteration,
`toQueryString` returns no string: it panics on the first `Add` to the nil map.
The same loop on an allocated map gives, for both orders, `a=1&b=x&b=y&c=3`,
the parameters grouped by key in ascending order of the keys. -/
theorem toQueryString_queryCAB_panics :
    toQueryString queryCAB = .error .assignNilMap ∧
    toQueryString queryBCA = .error .assignNilMap ∧
    (addQueryValues (some []) queryCAB).map Values.Encode = .ok (lit "a=1&b=x&b=y&c=3") ∧
    (addQueryValues (some []) queryBCA).map Values.Encode = .ok (lit "a=1&b=x&b=y&c=3") := by
  decide

/-! ## Lemmas: the loop of `toQueryString` on an allocated map -/

theorem valuesAdd_some (m : List (GoString × List GoString)) (key value : GoString) :
    Values.Add (some m) key value = .ok (some (addValue m key value)) := rfl

theorem foldlM_valuesAdd_some (name : GoString) (vs : List GoString)
    (m : List (GoString × List GoString)) :
    vs.foldlM (fun vm value => Values.Add vm name value) (some m) =
      .ok (some (vs.foldl (fun m v => addValue m name v) m)) := by
  induction vs generalizing m with
  | nil => rfl
  | cons v vs ih => rw [List.foldlM_cons, valuesAdd_some]; exact ih _

theorem addQueryValue_some (m : List (GoString × List GoString)) (name : GoString)
    (value : QueryValue) :
    addQueryValue (some m) name value = .ok (some (addQueryEntry m (name, value))) := by
  cases value with
  | str s => rfl
  | strs ss => exact foldlM_valuesAdd_some name ss m
  | other p => rfl

/-- On an allocated map the loop of `toQueryString` does not panic. -/
theorem addQueryValues_some (l : List (GoString × QueryValue))
    (m : List (GoString × List GoString)) :
    addQueryValues (some m) l = .ok (some (l.foldl addQueryEntry m)) := by
  induction l generalizing m with
  | nil => rfl
  | cons e l ih =>
    unfold addQueryValues at ih ⊢
    rw [List.foldlM_cons, addQueryValue_some]
    exact ih _

theorem mapGet_addQueryEntry (m : List (GoString × List GoString)) (e : GoString × QueryValue)
    (k : GoString) :
    mapGet (addQueryEntry m e) k [] =
      if e.1 = k then mapGet m k [] ++ e.2.strings else mapGet m k [] := by
  unfold addQueryEntry
  generalize e.2.strings = vs
  induction vs generalizing m with
  | nil => simp
  | cons v vs ih =>
    rw [List.foldl_cons, ih, addValue, mapGet_mapSet]
    by_cases h : e.1 = k
    · subst h; simp
    · simp [h]

theorem mapGet_foldl_addQueryEntry_of_not_mem (l : List (GoString × QueryValue))
    (m : List (GoString × List GoString)) (k : GoString) (hk : k ∉ l.map Prod.fst) :
    mapGet (l.foldl addQueryEntry m) k [] = mapGet m k [] := by
  induction l generalizing m with
  | nil => rfl
  | cons e l ih =>
    simp only [List.map_cons, List.mem_cons, not_or] at hk
    rw [List.foldl_cons, ih _ hk.2, mapGet_addQueryEntry, if_neg (Ne.symm hk.1)]

/-- After the loop, the values under the name of an entry are the strings of
that entry, in their order. -/
theorem mapGet_foldl_addQueryEntry (l : List (GoString × QueryValue))
    (m : List (GoString × List GoString)) (hnd : (l.map Prod.fst).Nodup)
    (e : GoString × QueryValue) (he : e ∈ l) :
    mapGet (l.foldl addQueryEntry m) e.1 [] = mapGet m e.1 [] ++ e.2.strings := by
  induction l generalizing m with
  | nil => cases he
  | cons a l ih =>
    simp only [List.map_cons, List.nodup_cons] at hnd
    rw [List.foldl_cons]
    rcases List.mem_cons.mp he with h | h
    · subst h
      rw [mapGet_foldl_addQueryEntry_of_not_mem _ _ _ hnd.1, mapGet_addQueryEntry, if_pos rfl]
    · have hne : a.1 ≠ e.1 := by
        intro heq
        exact hnd.1 (heq ▸ List.mem_map_of_mem Prod.fst h)
      rw [ih _ hnd.2 h, mapGet_addQueryEntry, if_neg hne]

theorem keys_mapSet {β : Type} (m : List (GoString × β)) (k : GoString) (v : β) :
    (mapSet m k v).map Prod.fst =
      if k ∈ m.map Prod.fst then m.map Prod.fst else m.map Prod.fst ++ [k] := by
  induction m with
  | nil => simp [mapSet]
  | cons e m ih =>
    obtain ⟨a, b⟩ := e
    by_cases h : a = k
    · subst h; simp [mapSet]
    · have h' : ¬ k = a := fun hk => h hk.symm
      by_cases hm : k ∈ m.map Prod.fst
      · simp only [mapSet, h, if_false, List.map_cons, ih, hm, if_true, List.mem_cons, or_true]
      · simp only [mapSet, h, if_false, List.map_cons, ih, hm, List.mem_cons, h', or_self,
          List.cons_append]

theorem nodup_keys_mapSet {β : Type} (m : List (GoString × β)) (k : GoString) (v : β)
    (hnd : (m.map Prod.fst).Nodup) : ((mapSet m k v).map Prod.fst).Nodup := by
  rw [keys_mapSet]
  split
  · exact hnd
  · rename_i h
    exact List.nodup_append.mpr ⟨hnd, List.nodup_singleton k, by
      intro a ha hak
      simp only [List.mem_singleton] at hak
      subst hak
      exact h ha⟩

theorem mem_keys_mapSet {β : Type} (m : List (GoString × β)) (k k' : GoString) (v : β) :
    k' ∈ (mapSet m k v).map Prod.fst ↔ k' = k ∨ k' ∈ m.map Prod.fst := by
  rw [keys_mapSet]
  split
  · rename_i h
    constructor
    · intro h'; right; exact h'
    · rintro (h' | h')
      · subst h'; exact h
      · exact h'
  · simp only [List.mem_append, List.mem_singleton]
    tauto

theorem nodup_keys_addQueryEntry (m : List (GoString × List GoString))
    (e : GoString × QueryValue) (hnd : (m.map Prod.fst).Nodup) :
    ((addQueryEntry m e).map Prod.fst).Nodup := by
  unfold addQueryEntry
  generalize e.2.strings = vs
  induction vs generalizing m with
  | nil => exact hnd
  | cons v vs ih => rw [List.foldl_cons]; exact ih _ (nodup_keys_mapSet _ _ _ hnd)

theorem mem_keys_addQueryEntry (m : List (GoString × List GoString))
    (e : GoString × QueryValue) (k : GoString) :
    k ∈ (addQueryEntry m e).map Prod.fst ↔
      k ∈ m.map Prod.fst ∨ (k = e.1 ∧ e.2.strings ≠ []) := by
  unfold addQueryEntry
  generalize e.2.strings = vs
  induction vs generalizing m with
  | nil => simp
  | cons v vs ih =>
    rw [List.foldl_cons, ih, addValue, mem_keys_mapSet]
    by_cases hvs : vs = []
    · subst hvs; simp; tauto
    · simp [hvs]; tauto

theorem nodup_keys_foldl_addQueryEntry (l : List (GoString × QueryValue))
    (m : List (GoString × List GoString)) (hnd : (m.map Prod.fst).Nodup) :
    ((l.foldl addQueryEntry m).map Prod.fst).Nodup := by
  induction l generalizing m with
  | nil => exact hnd
  | cons e l ih => rw [List.foldl_cons]; exact ih _ (nodup_keys_addQueryEntry _ _ hnd)

theorem mem_keys_foldl_addQueryEntry (l : List (GoString × QueryValue))
    (m : List (GoString × List GoString)) (k : GoString) :
    k ∈ (l.foldl addQueryEntry m).map Prod.fst ↔
      k ∈ m.map Prod.fst ∨ ∃ e ∈ l, k = e.1 ∧ e.2.strings ≠ [] := by
  induction l generalizing m with
  | nil => simp
  | cons e l ih =>
    rw [List.foldl_cons, ih, mem_keys_addQueryEntry]
    simp only [List.mem_cons, exists_eq_or_imp]
    tauto

/-! ## Lemmas: the order of the keys -/

theorem strLe_refl (a : GoString) : strLe a a = true := by
  induction a with
  | nil => rfl
  | cons x a ih => simp [strLe, ih]

theorem strLe_total (a b : GoString) : strLe a b = true ∨ strLe b a = true := by
  induction a generalizing b with
  | nil => left; rfl
  | cons x a ih =>
    cases b with
    | nil => right; rfl
    | cons y b =>
      by_cases h1 : x.val < y.val
      · left; simp [strLe, h1]
      · by_cases h2 : y.val < x.val
        · right; simp [strLe, h2]
        · rcases ih b with h | h
          · left; simp [strLe, h1, h2, h]
          · right; simp [strLe, h1, h2, h]

theorem strLe_antisymm (a b : GoString) (hab : strLe a b = true) (hba : strLe b a = true) :
    a = b := by
  induction a generalizing b with
  | nil =>
    cases b with
    | nil => rfl
    | cons y b => simp [strLe] at hba
  | cons x a ih =>
    cases b with
    | nil => simp [strLe] at hab
    | cons y b =>
      by_cases h1 : x.val < y.val
      · have : ¬ y.val < x.val := by omega
        simp [strLe, h1, this] at hba
      · by_cases h2 : y.val < x.val
        · simp [strLe, h1, h2] at hab
        · simp only [strLe, h1, h2, if_false] at hab hba
          have hxy : x = y := Fin.ext (by omega)
          rw [hxy, ih b hab hba]

theorem strLe_trans (a b c : GoString) (hab : strLe a b = true) (hbc : strLe b c = true) :
    strLe a c = true := by
  induction a generalizing b c with
  | nil => rfl
  | cons x a ih =>
    cases b with
    | nil => simp [strLe] at hab
    | cons y b =>
      cases c with
      | nil => simp [strLe] at hbc
      | cons z c =>
        by_cases h1 : x.val < y.val
        · by_cases h3 : y.val < z.val
          · have : x.val < z.val := by omega
            simp [strLe, this]
          · by_cases h4 : z.val < y.val
            · simp [strLe, h3, h4] at hbc
            · have : x.val < z.val := by omega
              simp [strLe, this]
        · by_cases h2 : y.val < x.val
          · simp [strLe, h1, h2] at hab
          · simp only [strLe, h1, h2, if_false] at hab
            by_cases h3 : y.val < z.val
            · have : x.val < z.val := by omega
              simp [strLe, this]
            · by_cases h4 : z.val < y.val
              · simp [strLe, h3, h4] at hbc
              · simp only [strLe, h3, h4, if_false] at hbc
                have h5 : ¬ x.val < z.val := by omega
                have h6 : ¬ z.val < x.val := by omega
                simp only [strLe, h5, h6, if_false]
                exact ih b c hab hbc

theorem insertKey_eq_orderedInsert (k : GoString) (l : List GoString) :
    insertKey k l = List.orderedInsert (fun a b => strLe a b = true) k l := by
  induction l with
  | nil => rfl
  | cons a l ih =>
    by_cases h : strLe k a = true
    · simp [insertKey, List.orderedInsert, h]
    · simp [insertKey, List.orderedInsert, h, ih]

theorem sortKeys_eq_insertionSort (l : List GoString) :
    sortKeys l = List.insertionSort (fun a b => strLe a b = true) l := by
  induction l with
  | nil => rfl
  | cons a l ih =>
    have : sortKeys (a :: l) = insertKey a (sortKeys l) := rfl
    rw [this, ih, insertKey_eq_orderedInsert]
    rfl

/-- Sorting gives the same list for every two orders of the same keys. -/
theorem sortKeys_perm (l l' : List GoString) (hp : l.Perm l') : sortKeys l = sortKeys l' := by
  haveI : IsTotal GoString (fun a b => strLe a b = true) := ⟨strLe_total⟩
  haveI : IsTrans GoString (fun a b => strLe a b = true) := ⟨strLe_trans⟩
  haveI : IsAntisymm GoString (fun a b => strLe a b = true) := ⟨strLe_antisymm⟩
  rw [sortKeys_eq_insertionSort, sortKeys_eq_insertionSort]
  exact List.eq_of_perm_of_sorted
    (((List.perm_insertionSort _ l).trans hp).trans (List.perm_insertionSort _ l').symm)
    (List.sorted_insertionSort _ l) (List.sorted_insertionSort _ l')

/-- Two maps with the same keys and the same values under every key have the same
encoding. -/
theorem Encode_congr (m m' : List (GoString × List GoString))
    (hkeys : (m.map Prod.fst).Perm (m'.map Prod.fst))
    (hget : ∀ k, mapGet m k [] = mapGet m' k []) :
    Values.Encode (some m) = Values.Encode (some m') := by
  unfold Values.Encode
  simp only
  rw [sortKeys_perm _ _ hkeys]
  congr 1
  funext buf k
  rw [hget]

/-- On an allocated map, the loop of `toQueryString` followed by `Encode` gives
the same string for every two orders of iteration over the same query map. -/
theorem addQueryValues_allocated_perm (m m' : List (GoString × QueryValue)) (hp : m.Perm m')
    (hnd : (m.map Prod.fst).Nodup) :
    (addQueryValues (some []) m).map Values.Encode =
      (addQueryValues (some []) m').map Values.Encode := by
  have hnd' : (m'.map Prod.fst).Nodup := (hp.map Prod.fst).nodup_iff.mp hnd
  rw [addQueryValues_some, addQueryValues_some]
  show Except.ok _ = Except.ok _
  congr 1
  apply Encode_congr
  · rw [List.perm_ext_iff_of_nodup (nodup_keys_foldl_addQueryEntry m [] List.nodup_nil)
      (nodup_keys_foldl_addQueryEntry m' [] List.nodup_nil)]
    intro k
    rw [mem_keys_foldl_addQueryEntry, mem_keys_foldl_addQueryEntry]
    constructor
    · rintro (h | ⟨e, he, h⟩)
      · exact Or.inl h
      · exact Or.inr ⟨e, hp.mem_iff.mp he, h⟩
    · rintro (h | ⟨e, he, h⟩)
      · exact Or.inl h
      · exact Or.inr ⟨e, hp.mem_iff.mpr he, h⟩
  · intro k
    by_cases hk : k ∈ m.map Prod.fst
    · obtain ⟨e, he, rfl⟩ := List.mem_map.mp hk
      rw [mapGet_foldl_addQueryEntry m [] hnd e he,
        mapGet_foldl_addQueryEntry m' [] hnd' e (hp.mem_iff.mp he)]
    · have hk' : k ∉ m'.map Prod.fst := fun h => hk ((hp.map Prod.fst).mem_iff.mpr h)
      rw [mapGet_foldl_addQueryEntry_of_not_mem m [] k hk,
        mapGet_foldl_addQueryEntry_of_not_mem m' [] k hk']

end Scfgo
